import Mathlib

/-!
Verification of the lector feed reader's article-store subsystem, legacy
migration, write-queue and feed parser, modelled from src/src/db.js and the
parseRSS function of the main application module (src/unnamed/part_000).

The SQLite tables (feeds, articles, meta) are modelled as Lean lists whose
order is row insertion order; SQL ORDER BY is modelled by a stable insertion
sort on the queried key.  JavaScript date parsing (new Date(s).getTime() || 0)
is kept abstract as a parameter pd : String → Int, and Date.now() as an
explicit now : Int argument.  JavaScript falsy-string defaulting (a || b) is
modelled by jsOr.
-/

namespace Lector

/-- JavaScript string defaulting a || b: the empty string is the only falsy
string, so the result is b exactly when a is empty. -/
def jsOr (a b : String) : String := if a = "" then b else a

/-- A row of the articles table (src/src/db.js).  Column types follow the SQL:
is_read and is_starred are the stored integers (0/1 in normal operation),
timestamps are integers. -/
structure Article where
  id : String
  feed_url : String
  feed_name : String
  title : String
  link : String
  published : String
  published_ts : Int
  content : String
  author : String
  is_read : Int
  is_starred : Int
  fetched_at : Int
deriving Repr, DecidableEq

/-- A row of the feeds table. -/
structure Feed where
  url : String
  name : String
  added_at : Int
deriving Repr, DecidableEq

/-- The durable store: the feeds and articles tables plus the meta table's
single migration key (value of the key migrated_from_localstorage, when the
row exists). -/
structure Store where
  feeds : List Feed
  articles : List Article
  migratedMarker : Option String
deriving Repr, DecidableEq

/-- A parsed feed entry as produced by parseRSS and consumed by
upsertArticles (the item objects of the source). -/
structure Entry where
  title : String
  link : String
  published : String
  content : String
  author : String
deriving Repr, DecidableEq

/-- The SQL ordering ORDER BY published_ts DESC, fetched_at DESC as a
relation: articleLE a b holds when a may come before b, that is when the key
pair of a is lexicographically at least that of b. -/
def articleLE (a b : Article) : Prop :=
  b.published_ts < a.published_ts ∨
    (b.published_ts = a.published_ts ∧ b.fetched_at ≤ a.fetched_at)

instance : DecidableRel articleLE := fun a b =>
  inferInstanceAs (Decidable (b.published_ts < a.published_ts ∨
    (b.published_ts = a.published_ts ∧ b.fetched_at ≤ a.fetched_at)))

instance : IsTotal Article articleLE :=
  ⟨by intro a b; unfold articleLE; omega⟩

instance : IsTrans Article articleLE :=
  ⟨by intro a b c hab hbc; unfold articleLE at hab hbc ⊢; omega⟩

/-- Stable sort realising ORDER BY published_ts DESC, fetched_at DESC. -/
def sortRows (l : List Article) : List Article := List.insertionSort articleLE l

/-- Derived article id (src/src/db.js line 81):
feedUrl ++ "::" ++ (item.link || item.title). -/
def entryId (feedUrl : String) (e : Entry) : String :=
  feedUrl ++ "::" ++ jsOr e.link e.title

/-- published_ts of an entry (src/src/db.js line 82):
item.published ? new Date(item.published).getTime() || 0 : 0, with the date
parse abstract as pd. -/
def entryTs (pd : String → Int) (e : Entry) : Int :=
  if e.published = "" then 0 else pd e.published

/-- The ON CONFLICT(id) DO UPDATE branch of the article upsert: overwrites
feed_name, title, link, published, published_ts, content, author and
fetched_at; leaves id, feed_url, is_read and is_starred untouched. -/
def applyEntry (pd : String → Int) (now : Int) (feedName : String) (e : Entry)
    (a : Article) : Article :=
  { a with feed_name := feedName, title := e.title, link := e.link,
           published := e.published, published_ts := entryTs pd e,
           content := e.content, author := e.author, fetched_at := now }

/-- The plain INSERT branch of the article upsert.  is_read and is_starred
are not in the INSERT column list; their schema defaults are 0 (spec: both
flags default to false). -/
def insertEntry (pd : String → Int) (now : Int) (feedUrl feedName : String)
    (e : Entry) : Article :=
  { id := entryId feedUrl e, feed_url := feedUrl, feed_name := feedName,
    title := e.title, link := e.link, published := e.published,
    published_ts := entryTs pd e, content := e.content, author := e.author,
    is_read := 0, is_starred := 0, fetched_at := now }

/-- One INSERT ... ON CONFLICT(id) DO UPDATE statement of the upsert loop
(src/src/db.js lines 83 to 90). -/
def upsertOne (pd : String → Int) (now : Int) (feedUrl feedName : String)
    (arts : List Article) (e : Entry) : List Article :=
  if arts.any (fun a => a.id == entryId feedUrl e) then
    arts.map (fun a =>
      if a.id == entryId feedUrl e then applyEntry pd now feedName e a else a)
  else
    arts ++ [insertEntry pd now feedUrl feedName e]

/-- The WHERE is_starred = 0 AND feed_url = feedUrl predicate of the pruning
DELETE and of its keep subquery. -/
def groupB (feedUrl : String) (a : Article) : Bool :=
  a.is_starred == 0 && a.feed_url == feedUrl

/-- The keep subquery of the pruning DELETE (src/src/db.js lines 97 to 101):
the ids of the first 500 non-starred rows of this feed ordered by
published_ts DESC, fetched_at DESC. -/
def keepIds (feedUrl : String) (arts : List Article) : List String :=
  ((sortRows (arts.filter (groupB feedUrl))).take 500).map Article.id

/-- The pruning DELETE of src/src/db.js lines 93 to 104: delete the
non-starred rows of this feed whose id is not in the keep subquery. -/
def pruneFeed (feedUrl : String) (arts : List Article) : List Article :=
  arts.filter (fun a =>
    !(groupB feedUrl a && !((keepIds feedUrl arts).contains a.id)))

/-- upsertArticles (src/src/db.js lines 77 to 106): fold the per-entry upsert
over the entry list, then prune the feed. -/
def upsertArticles (pd : String → Int) (now : Int) (feedUrl feedName : String)
    (items : List Entry) (arts : List Article) : List Article :=
  pruneFeed feedUrl (items.foldl (upsertOne pd now feedUrl feedName) arts)

/-- The read-model object built by rowToArticle (src/src/db.js lines 62 to
75): only these ten fields are exposed; published_ts and fetched_at of the
row are omitted. -/
structure ArticleView where
  id : String
  feedUrl : String
  feedName : String
  title : String
  link : String
  published : String
  content : String
  author : String
  is_read : Bool
  is_starred : Bool
deriving Repr, DecidableEq

/-- rowToArticle: project a stored row to the read model, coercing the
integer flags to booleans with JavaScript double negation (nonzero means
true). -/
def rowToArticle (r : Article) : ArticleView :=
  { id := r.id, feedUrl := r.feed_url, feedName := r.feed_name,
    title := r.title, link := r.link, published := r.published,
    content := r.content, author := r.author,
    is_read := r.is_read != 0, is_starred := r.is_starred != 0 }

/-- The WHERE clause assembled by listArticles (src/src/db.js lines 37 to
55): a feed_url condition when the feedUrl option is truthy (present and
non-empty), plus is_read = 0 for filter "unread" or is_starred = 1 for
filter "starred". -/
def listCond (feedUrl : Option String) (filter : String) (a : Article) : Bool :=
  (match feedUrl with
   | some u => if u = "" then true else a.feed_url == u
   | none => true) &&
  (if filter == "unread" then a.is_read == 0
   else if filter == "starred" then a.is_starred == 1
   else true)

/-- The rows selected by listArticles, in result order (WHERE then
ORDER BY published_ts DESC, fetched_at DESC). -/
def listArticlesRows (feedUrl : Option String) (filter : String)
    (arts : List Article) : List Article :=
  sortRows (arts.filter (listCond feedUrl filter))

/-- listArticles (src/src/db.js lines 37 to 60): the selected rows mapped
through rowToArticle. -/
def listArticles (feedUrl : Option String) (filter : String)
    (arts : List Article) : List ArticleView :=
  (listArticlesRows feedUrl filter arts).map rowToArticle

/-- markRead (src/src/db.js lines 108 to 112). -/
def markRead (articleId : String) (arts : List Article) : List Article :=
  arts.map (fun a => if a.id == articleId then { a with is_read := 1 } else a)

/-- toggleRead (src/src/db.js lines 114 to 118). -/
def toggleRead (articleId : String) (arts : List Article) : List Article :=
  arts.map (fun a =>
    if a.id == articleId then
      { a with is_read := if a.is_read = 1 then 0 else 1 }
    else a)

/-- toggleStar (src/src/db.js lines 120 to 124). -/
def toggleStar (articleId : String) (arts : List Article) : List Article :=
  arts.map (fun a =>
    if a.id == articleId then
      { a with is_starred := if a.is_starred = 1 then 0 else 1 }
    else a)

/-- markAllRead (src/src/db.js lines 126 to 132). -/
def markAllRead (articleIds : List String) (arts : List Article) : List Article :=
  if articleIds = [] then arts
  else arts.map (fun a =>
    if articleIds.contains a.id then { a with is_read := 1 } else a)

/-- removeFeed (src/src/db.js lines 31 to 35) issues
DELETE FROM feeds WHERE url = $1.
Modelled from the spec: the articles cascade.  The CREATE TABLE schema with
the articles.feed_url foreign key lives in the Tauri-side migration, which is
not under src/; per the spec, removing a Feed removes all Articles whose
feedUrl matches (cascade delete), so the articles table drops exactly the
rows of the removed feed. -/
def removeFeed (url : String) (st : Store) : Store :=
  { st with
    feeds := st.feeds.filter (fun f => !(f.url == url)),
    articles := st.articles.filter (fun a => !(a.feed_url == url)) }

/-- A legacy feed record from the rss-feeds localStorage key. -/
structure LegacyFeed where
  url : String
  name : String
  addedAt : String
deriving Repr, DecidableEq

/-- A legacy article record from the rss-articles localStorage key. -/
structure LegacyArticle where
  id : String
  feedUrl : String
  feedName : String
  title : String
  link : String
  published : String
  content : String
  author : String
deriving Repr, DecidableEq

/-- The four legacy localStorage keys as returned by getLocalStorage: none
models a missing or unparsable key.  The read and starred maps model the
legacy id-indexed truthiness lookups legacyRead[a.id] / legacyStarred[a.id]. -/
structure LocalStorageState where
  feeds : Option (List LegacyFeed)
  articles : Option (List LegacyArticle)
  readMap : Option (String → Bool)
  starredMap : Option (String → Bool)

/-- INSERT OR IGNORE keyed by a string natural key: append the new row only
when no existing row carries the key of the incoming record. -/
def insAbs {α ρ : Type} (k : ρ → String) (ki : α → String) (mk : α → ρ)
    (s : List ρ) (x : α) : List ρ :=
  if s.any (fun r => k r == ki x) then s else s ++ [mk x]

/-- The feeds row built by the migration loop (src/src/db.js lines 153 to
156): added_at is new Date(feed.addedAt || new Date().toISOString()).getTime(),
with the current ISO string abstract as nowIso and date parsing as pd. -/
def legacyFeedRow (pd : String → Int) (nowIso : String) (f : LegacyFeed) : Feed :=
  { url := f.url, name := f.name, added_at := pd (jsOr f.addedAt nowIso) }

/-- The articles row built by the migration loop (src/src/db.js lines 160 to
169), carrying the legacy read/starred flags. -/
def legacyArticleRow (pd : String → Int) (now : Int)
    (readMap starredMap : Option (String → Bool)) (a : LegacyArticle) : Article :=
  { id := a.id, feed_url := a.feedUrl, feed_name := a.feedName,
    title := a.title, link := a.link, published := a.published,
    published_ts := if a.published = "" then 0 else pd a.published,
    content := a.content, author := a.author,
    is_read := if (match readMap with | some m => m a.id | none => false) then 1 else 0,
    is_starred := if (match starredMap with | some m => m a.id | none => false) then 1 else 0,
    fetched_at := now }

/-- The feed-insertion step function of the migration. -/
def migFeedStep (pd : String → Int) (nowIso : String) :
    List Feed → LegacyFeed → List Feed :=
  insAbs Feed.url LegacyFeed.url (legacyFeedRow pd nowIso)

/-- The article-insertion step function of the migration. -/
def migArtStep (pd : String → Int) (now : Int)
    (readMap starredMap : Option (String → Bool)) :
    List Article → LegacyArticle → List Article :=
  insAbs Article.id LegacyArticle.id (legacyArticleRow pd now readMap starredMap)

/-- The empty localStorage state left after the migration clears the four
legacy keys. -/
def clearedLS : LocalStorageState :=
  { feeds := none, articles := none, readMap := none, starredMap := none }

/-- The hasData check of the migration (src/src/db.js line 143): some legacy
feeds or some legacy articles exist. -/
def hasLegacyData (ls : LocalStorageState) : Bool :=
  (match ls.feeds with | some fs => decide (0 < fs.length) | none => false) ||
  (match ls.articles with | some la => decide (0 < la.length) | none => false)

/-- importFromLocalStorageIfNeeded (src/src/db.js lines 134 to 182): return
unchanged when the meta marker row exists with value "1"; otherwise, with no
legacy data, just commit the marker; otherwise insert-or-ignore every legacy
feed by url and every legacy article by id, commit the marker, and clear the
legacy keys. -/
def importFromLocalStorageIfNeeded (pd : String → Int) (nowIso : String)
    (now : Int) (st : Store) (ls : LocalStorageState) :
    Store × LocalStorageState :=
  if st.migratedMarker = some "1" then (st, ls)
  else if hasLegacyData ls then
    ({ feeds := (ls.feeds.getD []).foldl (migFeedStep pd nowIso) st.feeds,
       articles := (ls.articles.getD []).foldl
         (migArtStep pd now ls.readMap ls.starredMap) st.articles,
       migratedMarker := some "1" },
     clearedLS)
  else
    ({ st with migratedMarker := some "1" }, ls)

/-- A store left by a migration run interrupted before the marker commits:
some prefix of the legacy feeds and some prefix of the legacy articles have
been inserted, the marker row is untouched and localStorage is untouched
(the legacy keys are only cleared after the marker commit). -/
def interruptedImport (pd : String → Int) (nowIso : String) (now : Int)
    (readMap starredMap : Option (String → Bool))
    (p1 : List LegacyFeed) (p2 : List LegacyArticle) (st : Store) : Store :=
  { st with
    feeds := p1.foldl (migFeedStep pd nowIso) st.feeds,
    articles := p2.foldl (migArtStep pd now readMap starredMap) st.articles }

/-- The write queue behind withWriteLock (src/src/db.js lines 5 to 11): the
promise chain runs the queued operations strictly one after another in
submission order; each operation transforms the shared state and either
resolves or rejects for its own caller, and the chain continues with the
following operation either way (writeLock is replaced by next.catch of a
no-op).  runOps returns the final state and the per-operation outcomes in
submission order. -/
def runOps {σ ε : Type} (ops : List (σ → σ × Except ε Unit)) (s : σ) :
    σ × List (Except ε Unit) :=
  match ops with
  | [] => (s, [])
  | op :: rest =>
    let r := op s
    let t := runOps rest r.1
    (t.1, r.2 :: t.2)

/-- An XML element as seen through the DOM calls used by parseRSS: tag name,
attribute list, the element's own text and its child elements.  The string
input has already gone through DOMParser.parseFromString, which is total on
the platform (it yields an error document rather than throwing); the model
therefore starts from the resulting tree, with the document itself as the
root node. -/
inductive XNode where
  | elem (tag : String) (attrs : List (String × String)) (text : String)
      (kids : List XNode)
deriving Repr

/-- Tag name of a node. -/
def XNode.tag : XNode → String
  | .elem t _ _ _ => t

/-- Child elements of a node. -/
def XNode.kids : XNode → List XNode
  | .elem _ _ _ ks => ks

/-- getAttribute: first binding of the attribute name, none when absent. -/
def XNode.attr (n : XNode) (key : String) : Option String :=
  match n with
  | .elem _ as_ _ _ => as_.lookup key

mutual
/-- textContent of a node: its own text followed by that of its subtree. -/
def XNode.textContent : XNode → String
  | .elem _ _ tx ks => tx ++ XNode.textList ks
/-- textContent of a list of nodes, concatenated in order. -/
def XNode.textList : List XNode → String
  | [] => ""
  | n :: ns => n.textContent ++ XNode.textList ns
end

mutual
/-- querySelector with a node predicate: the first matching descendant of n
in document (preorder) order, excluding n itself. -/
def XNode.descend (p : XNode → Bool) : XNode → Option XNode
  | .elem _ _ _ ks => XNode.findFirst p ks
/-- First match in a forest, in document order: each node before its own
subtree, each subtree before the following siblings. -/
def XNode.findFirst (p : XNode → Bool) : List XNode → Option XNode
  | [] => none
  | n :: ns =>
    if p n then some n
    else match XNode.descend p n with
      | some m => some m
      | none => XNode.findFirst p ns
end

mutual
/-- querySelectorAll with a node predicate: every matching descendant of n in
document order, excluding n itself. -/
def XNode.descendAll (p : XNode → Bool) : XNode → List XNode
  | .elem _ _ _ ks => XNode.collectAll p ks
/-- All matches in a forest, in document order. -/
def XNode.collectAll (p : XNode → Bool) : List XNode → List XNode
  | [] => []
  | n :: ns =>
    (if p n then [n] else []) ++ XNode.descendAll p n ++ XNode.collectAll p ns
end

mutual
/-- The child combinator query parent > child (as in "feed > title" or
"author > name"): the first descendant with tag childTag whose parent element
has tag parentTag, in document order (the queried node itself is not a
candidate child but its tag counts as the parent of its children). -/
def XNode.selChild (parentTag childTag : String) : XNode → Option XNode
  | .elem t _ _ ks => XNode.selChildF parentTag childTag t ks
/-- Child-combinator search over a forest whose common parent has tag up:
each node is checked (against its parent's tag), then its subtree, then the
following siblings, realising document order. -/
def XNode.selChildF (parentTag childTag up : String) : List XNode → Option XNode
  | [] => none
  | n :: ns =>
    if up == parentTag && n.tag == childTag then some n
    else match XNode.selChild parentTag childTag n with
      | some m => some m
      | none => XNode.selChildF parentTag childTag up ns
end

/-- Predicate for a plain tag-name selector. -/
def tagIs (t : String) (n : XNode) : Bool := n.tag == t

/-- Optional-chaining text access e?.textContent with undefined read as the
falsy empty string, as the source's a || b chains treat it. -/
def optText (o : Option XNode) : String :=
  match o with
  | some n => n.textContent
  | none => ""

/-- Optional-chaining attribute access e?.getAttribute(key), with null and
undefined read as the falsy empty string. -/
def optAttr (o : Option XNode) (key : String) : String :=
  match o with
  | some n => (n.attr key).getD ""
  | none => ""

/-- Result of parseRSS: the feed title and the entry list. -/
structure ParsedFeed where
  feedTitle : String
  items : List Entry
deriving Repr, DecidableEq

/-- One Atom entry (src/unnamed/part_000 lines 13 to 21). -/
def atomEntry (entry : XNode) : Entry :=
  { title := jsOr (optText (entry.descend (tagIs "title"))) "Untitled",
    link := jsOr
      (optAttr (entry.descend
        (fun n => n.tag == "link" && n.attr "rel" == some "alternate")) "href")
      (jsOr (optAttr (entry.descend (tagIs "link")) "href") ""),
    published := jsOr (optText (entry.descend (tagIs "published")))
      (jsOr (optText (entry.descend (tagIs "updated"))) ""),
    content := jsOr (optText (entry.descend (tagIs "content")))
      (jsOr (optText (entry.descend (tagIs "summary"))) ""),
    author := jsOr (optText (entry.selChild "author" "name")) "" }

/-- One RSS item (src/unnamed/part_000 lines 26 to 33).  The source queries
dc\:date, content:encoded, dc:creator by their literal colon-bearing names. -/
def rssItem (item : XNode) : Entry :=
  { title := jsOr (optText (item.descend (tagIs "title"))) "Untitled",
    link := jsOr (optText (item.descend (tagIs "link"))) "",
    published := jsOr (optText (item.descend (tagIs "pubDate")))
      (jsOr (optText (item.descend (tagIs "dc:date"))) ""),
    content := jsOr (optText (item.descend (tagIs "content:encoded")))
      (jsOr (optText (item.descend (tagIs "description"))) ""),
    author := jsOr (optText (item.descend (tagIs "dc:creator")))
      (jsOr (optText (item.descend (tagIs "author"))) "") }

/-- parseRSS (src/unnamed/part_000 lines 6 to 36) on a parsed document tree:
sniff Atom by the presence of any feed element, else treat the document as
RSS (channel/item); total by construction. -/
def parseRSS (doc : XNode) : ParsedFeed :=
  if (doc.descend (tagIs "feed")).isSome then
    { feedTitle := jsOr (optText (doc.selChild "feed" "title")) "Untitled",
      items := (doc.descendAll (tagIs "entry")).map atomEntry }
  else
    { feedTitle := jsOr
        (optText (match doc.descend (tagIs "channel") with
          | some c => c.descend (tagIs "title")
          | none => none)) "Untitled",
      items := (doc.descendAll (tagIs "item")).map rssItem }

/-! Concrete fixtures used by witnesses and counterexamples. -/

/-- A tiny concrete store used by several witnesses: one feed u with one
article, one feed v with one article. -/
def wStore : Store :=
  { feeds := [{ url := "u", name := "U", added_at := 0 },
              { url := "v", name := "V", added_at := 1 }],
    articles :=
      [{ id := "u::1", feed_url := "u", feed_name := "U", title := "t1",
         link := "1", published := "", published_ts := 0, content := "",
         author := "", is_read := 0, is_starred := 0, fetched_at := 0 },
       { id := "v::2", feed_url := "v", feed_name := "V", title := "t2",
         link := "2", published := "", published_ts := 0, content := "",
         author := "", is_read := 1, is_starred := 1, fetched_at := 0 }],
    migratedMarker := some "1" }

/-- A concrete date parser standing in for new Date(s).getTime() || 0 in
witnesses. -/
def pdW : String → Int := fun _ => 0

/-- A stored article of feed u that is read and starred, with the derived id
of wEntry. -/
def wOld : Article :=
  { id := "u::l", feed_url := "u", feed_name := "U", title := "old",
    link := "l", published := "", published_ts := 5, content := "oldc",
    author := "olda", is_read := 1, is_starred := 1, fetched_at := 1 }

/-- A fresh fetch of the same entry with changed title and content. -/
def wEntry : Entry :=
  { title := "new", link := "l", published := "", content := "newc",
    author := "newa" }

/-- A starred article of feed u used by the starred-exemption witness. -/
def wStarred : Article :=
  { id := "u::s", feed_url := "u", feed_name := "U", title := "s",
    link := "s", published := "", published_ts := 0, content := "",
    author := "", is_read := 0, is_starred := 1, fetched_at := 0 }

/-- The i-th of 500 non-starred articles of feed u, all strictly newer than
the entry the C7 counterexample upserts; the ids are 500 distinct
one-character strings. -/
def oldArt (i : Nat) : Article :=
  { id := String.mk [Char.ofNat (1000 + i)], feed_url := "u",
    feed_name := "n", title := "t", link := "", published := "",
    published_ts := 1, content := "", author := "", is_read := 0,
    is_starred := 0, fetched_at := 1 }

/-- A feed-u table already holding 500 newer non-starred articles. -/
def full500 : List Article := (List.range 500).map oldArt

/-- The entry whose upsert the C7 counterexample repeats: its derived id is
"u::l" and its parsed timestamp is 0, older than every stored row. -/
def e0 : Entry :=
  { title := "t", link := "l", published := "", content := "", author := "" }

/-- An article of feed B whose id "a::b::c" collides with the derived id of
colEntry upserted for the feed url "a" (feed urls containing the separator
make cross-feed collisions possible). -/
def colArt : Article :=
  { id := "a::b::c", feed_url := "B", feed_name := "B", title := "old",
    link := "b::c", published := "", published_ts := 0, content := "",
    author := "", is_read := 0, is_starred := 0, fetched_at := 0 }

/-- The colliding entry: for feed url "a" its derived id is "a::b::c". -/
def colEntry : Entry :=
  { title := "x", link := "b::c", published := "", content := "", author := "" }

/-- An article of the unrelated feed v. -/
def vArt : Article :=
  { id := "v::2", feed_url := "v", feed_name := "V", title := "t2",
    link := "2", published := "", published_ts := 0, content := "",
    author := "", is_read := 1, is_starred := 1, fetched_at := 0 }

/-- Three queued operations for the write-queue witness: an increment, a
failing operation, and another increment — the failure must not stop the
third. -/
def opsW : List (Nat → Nat × Except String Unit) :=
  [fun s => (s + 1, Except.ok ()),
   fun s => (s, Except.error "boom"),
   fun s => (s + 2, Except.ok ())]

/-- A small RSS document: one channel, one titled feed, one item having only
a link. -/
def rssDocW : XNode :=
  .elem "#document" [] ""
    [.elem "rss" [] ""
      [.elem "channel" [] ""
        [.elem "title" [] "My Feed" [],
         .elem "item" [] "" [.elem "link" [] "http://x" []]]]]

/-- The single item of rssDocW: it has no title element. -/
def rssItemW : XNode := .elem "item" [] "" [.elem "link" [] "http://x" []]

/-- An Atom entry with no published element but an updated element. -/
def atomEntryW : XNode :=
  .elem "entry" [] "" [.elem "updated" [] "2020-01-01" []]

/-- A legacy feed record for the migration witness. -/
def lsFeed1 : LegacyFeed := { url := "u", name := "U", addedAt := "" }

/-- A legacy article record for the migration witness. -/
def lsArt1 : LegacyArticle :=
  { id := "x1", feedUrl := "u", feedName := "U", title := "t", link := "l",
    published := "", content := "", author := "" }

/-- An empty store with the migration marker not yet committed. -/
def emptyStore : Store := { feeds := [], articles := [], migratedMarker := none }

/-- A localStorage snapshot with one legacy feed and one legacy article, the
article marked read and not starred. -/
def lsW : LocalStorageState :=
  { feeds := some [lsFeed1], articles := some [lsArt1],
    readMap := some (fun i => i == "x1"), starredMap := none }

end Lector

/- THEOREMS -/

namespace Lector

open List in
/-- Restatement of list membership through the Bool contains used by the SQL
NOT IN model. -/
theorem contains_true_iff {l : List String} {x : String} :
    l.contains x = true ↔ x ∈ l := List.elem_iff

/-- Rows with an id absent from a list have an empty id-filter. -/
theorem filter_id_nil {arts : List Article} {i : String}
    (h : ∀ b ∈ arts, b.id ≠ i) :
    arts.filter (fun b => b.id == i) = [] := by
  simp only [List.filter_eq_nil_iff, beq_iff_eq]
  exact h

/-- Under globally unique ids, filtering a table by the id of one of its
rows yields exactly that row. -/
theorem filter_id_singleton {arts : List Article} {a : Article}
    (hnd : (arts.map Article.id).Nodup) (ha : a ∈ arts) :
    arts.filter (fun b => b.id == a.id) = [a] := by
  induction arts with
  | nil => cases ha
  | cons c t ih =>
    simp only [List.map_cons, List.nodup_cons, List.mem_map] at hnd
    rcases List.mem_cons.mp ha with rfl | hat
    · have ht : t.filter (fun b => b.id == a.id) = [] := by
        refine filter_id_nil ?_
        intro b hb hbe
        exact hnd.1 ⟨b, hb, hbe⟩
      simp [List.filter_cons, ht]
    · have hne : c.id ≠ a.id := by
        intro hce
        exact hnd.1 ⟨a, hat, hce.symm⟩
      have : (c.id == a.id) = false := beq_eq_false_iff_ne.mpr hne
      simp [List.filter_cons, this, ih hnd.2 hat]

/-- Filtering commutes with an id-respecting row rewrite: when the rewrite
only changes rows whose id equals j and j is not i, the id-i filter is
untouched. -/
theorem filter_id_map_other {l : List Article} {g : Article → Article}
    {i j : String} (hg : ∀ a, (g a).id = a.id) (hne : j ≠ i) :
    (l.map (fun a => if a.id == j then g a else a)).filter (fun b => b.id == i)
      = l.filter (fun b => b.id == i) := by
  induction l with
  | nil => rfl
  | cons a t ih =>
    simp only [List.map_cons, List.filter_cons]
    cases hb : a.id == j with
    | true =>
      have hj : a.id = j := beq_iff_eq.mp hb
      have h2 : ((g a).id == i) = false := by
        rw [hg a, hj]; exact beq_eq_false_iff_ne.mpr hne
      have h3 : (a.id == i) = false := by
        rw [hj]; exact beq_eq_false_iff_ne.mpr hne
      simp only [hb, if_true, h2, h3, Bool.false_eq_true, if_false, ih]
    | false =>
      simp only [hb, Bool.false_eq_true, if_false, ih]

/-- Filtering through an id-respecting row rewrite targeted at id i maps the
id-i filter through the rewrite. -/
theorem filter_id_map_hit {l : List Article} {g : Article → Article}
    {i : String} (hg : ∀ a, (g a).id = a.id) :
    (l.map (fun a => if a.id == i then g a else a)).filter (fun b => b.id == i)
      = (l.filter (fun b => b.id == i)).map g := by
  induction l with
  | nil => rfl
  | cons a t ih =>
    simp only [List.map_cons, List.filter_cons]
    cases hb : a.id == i with
    | true =>
      have h2 : ((g a).id == i) = true := by rw [hg a]; exact hb
      simp only [hb, if_true, h2, List.map_cons, ih]
    | false =>
      simp only [hb, Bool.false_eq_true, if_false, ih]

/-- applyEntry preserves the row id. -/
theorem applyEntry_id (pd : String → Int) (now : Int) (feedName : String)
    (e : Entry) (a : Article) : (applyEntry pd now feedName e a).id = a.id := rfl

/-- applyEntry preserves feed_url, is_read and is_starred. -/
theorem applyEntry_frame (pd : String → Int) (now : Int) (feedName : String)
    (e : Entry) (a : Article) :
    (applyEntry pd now feedName e a).feed_url = a.feed_url ∧
    (applyEntry pd now feedName e a).is_read = a.is_read ∧
    (applyEntry pd now feedName e a).is_starred = a.is_starred :=
  ⟨rfl, rfl, rfl⟩

/-- A single upsert step leaves the rows of any id other than the upserted
entry's id exactly in place. -/
theorem upsertOne_filter_other {pd : String → Int} {now : Int}
    {u n : String} {arts : List Article} {e : Entry} {i : String}
    (hne : entryId u e ≠ i) :
    (upsertOne pd now u n arts e).filter (fun b => b.id == i)
      = arts.filter (fun b => b.id == i) := by
  unfold upsertOne
  by_cases hany : arts.any (fun a => a.id == entryId u e) = true
  · rw [if_pos hany]
    exact filter_id_map_other (fun a => applyEntry_id pd now n e a) hne
  · rw [if_neg hany, List.filter_append]
    have : ((insertEntry pd now u n e).id == i) = false :=
      beq_eq_false_iff_ne.mpr hne
    simp [List.filter_cons, this]

/-- Folding the upsert over entries whose ids all differ from i leaves the
rows of id i exactly in place. -/
theorem foldl_upsert_filter_other {pd : String → Int} {now : Int}
    {u n : String} {items : List Entry} {arts : List Article} {i : String}
    (h : ∀ e ∈ items, entryId u e ≠ i) :
    (items.foldl (upsertOne pd now u n) arts).filter (fun b => b.id == i)
      = arts.filter (fun b => b.id == i) := by
  induction items generalizing arts with
  | nil => rfl
  | cons e t ih =>
    simp only [List.foldl_cons]
    rw [ih (fun x hx => h x (List.mem_cons_of_mem e hx))]
    exact upsertOne_filter_other (h e (List.mem_cons_self e t))

/-- A single upsert step keeps the id multiset unchanged (conflict update)
or appends the new derived id (insert). -/
theorem upsertOne_ids (pd : String → Int) (now : Int) (u n : String)
    (arts : List Article) (e : Entry) :
    (upsertOne pd now u n arts e).map Article.id = arts.map Article.id ∨
    ((upsertOne pd now u n arts e).map Article.id
        = arts.map Article.id ++ [entryId u e] ∧
      entryId u e ∉ arts.map Article.id) := by
  unfold upsertOne
  by_cases hany : arts.any (fun a => a.id == entryId u e) = true
  · left
    rw [if_pos hany, List.map_map]
    refine List.map_congr_left ?_
    intro a _
    by_cases h : a.id = entryId u e
    · simp [Function.comp, beq_iff_eq.mpr h, applyEntry_id]
    · simp [Function.comp, beq_eq_false_iff_ne.mpr h, h]
  · right
    rw [if_neg hany]
    constructor
    · simp [insertEntry]
    · intro hmem
      rcases List.mem_map.mp hmem with ⟨a, ha, hae⟩
      exact hany (List.any_eq_true.mpr ⟨a, ha, beq_iff_eq.mpr hae⟩)

/-- A single upsert step preserves global id uniqueness. -/
theorem upsertOne_nodup {pd : String → Int} {now : Int} {u n : String}
    {arts : List Article} {e : Entry}
    (hnd : (arts.map Article.id).Nodup) :
    ((upsertOne pd now u n arts e).map Article.id).Nodup := by
  rcases upsertOne_ids pd now u n arts e with h | ⟨h, hni⟩
  · rw [h]; exact hnd
  · rw [h]
    refine List.Nodup.append hnd (List.nodup_singleton _) ?_
    intro x hx hmem
    rcases List.mem_singleton.mp hmem with rfl
    exact absurd hx hni

/-- The upsert fold preserves global id uniqueness. -/
theorem foldl_upsert_nodup {pd : String → Int} {now : Int} {u n : String}
    {items : List Entry} {arts : List Article}
    (hnd : (arts.map Article.id).Nodup) :
    ((items.foldl (upsertOne pd now u n) arts).map Article.id).Nodup := by
  induction items generalizing arts with
  | nil => exact hnd
  | cons e t ih => exact ih (upsertOne_nodup hnd)

/-- Pruning only deletes rows; every surviving row was stored. -/
theorem pruneFeed_subset {u : String} {l : List Article} {b : Article}
    (hb : b ∈ pruneFeed u l) : b ∈ l :=
  List.mem_of_mem_filter hb

/-- A row of another feed, or a starred row, always survives pruning. -/
theorem pruneFeed_mem_of_not_group {u : String} {l : List Article}
    {a : Article} (ha : a ∈ l) (hg : groupB u a = false) :
    a ∈ pruneFeed u l := by
  refine List.mem_filter.mpr ⟨ha, ?_⟩
  simp [hg]

/-- A kept row of the pruned group has its id in the keep subquery. -/
theorem pruneFeed_group_mem_keep {u : String} {l : List Article}
    {b : Article} (hb : b ∈ pruneFeed u l) (hgb : groupB u b = true) :
    b.id ∈ keepIds u l := by
  have h := (List.mem_filter.mp hb).2
  rw [hgb] at h
  cases hc : (keepIds u l).contains b.id with
  | true => exact contains_true_iff.mp hc
  | false => rw [hc] at h; simp at h

/-- A deleted row belongs to the pruned group and its id is not kept. -/
theorem pruneFeed_deleted {u : String} {l : List Article} {a : Article}
    (ha : a ∈ l) (hdel : a ∉ pruneFeed u l) :
    groupB u a = true ∧ a.id ∉ keepIds u l := by
  by_contra hcon
  apply hdel
  refine List.mem_filter.mpr ⟨ha, ?_⟩
  cases hg : groupB u a with
  | false => simp
  | true =>
    cases hc : (keepIds u l).contains a.id with
    | true => simp [hg, hc]
    | false =>
      exact absurd ⟨hg, fun hmem => by
          rw [contains_true_iff.mpr hmem] at hc; cases hc⟩ hcon

/-- Under globally unique ids the pruned group retains at most 500 rows. -/
theorem pruneFeed_cap {u : String} {l : List Article}
    (hnd : (l.map Article.id).Nodup) :
    ((pruneFeed u l).filter (groupB u)).length ≤ 500 := by
  have hsub : List.Sublist ((pruneFeed u l).filter (groupB u)) l :=
    (List.filter_sublist _).trans (List.filter_sublist _)
  have hndS : (((pruneFeed u l).filter (groupB u)).map Article.id).Nodup :=
    (hsub.map Article.id).nodup hnd
  have hsubK : (((pruneFeed u l).filter (groupB u)).map Article.id)
      ⊆ keepIds u l := by
    intro x hx
    rcases List.mem_map.mp hx with ⟨b, hb, rfl⟩
    exact pruneFeed_group_mem_keep (List.mem_of_mem_filter hb)
      (List.of_mem_filter hb)
  have hlen := (hndS.subperm hsubK).length_le
  rw [List.length_map] at hlen
  refine hlen.trans ?_
  unfold keepIds
  rw [List.length_map]
  exact List.length_take_le _ _

/-- Every row kept by pruning in the pruned group is at least as new, in the
(published_ts, fetched_at) descending order, as every row pruning deleted. -/
theorem pruneFeed_kept_newest {u : String} {l : List Article} {a b : Article}
    (hnd : (l.map Article.id).Nodup)
    (ha : a ∈ l) (hdel : a ∉ pruneFeed u l)
    (hb : b ∈ pruneFeed u l) (hgb : groupB u b = true) :
    articleLE b a := by
  obtain ⟨hga, hka⟩ := pruneFeed_deleted ha hdel
  have hkb : b.id ∈ keepIds u l := pruneFeed_group_mem_keep hb hgb
  have hndG : ((l.filter (groupB u)).map Article.id).Nodup :=
    ((List.filter_sublist l).map Article.id).nodup hnd
  have haG : a ∈ l.filter (groupB u) := List.mem_filter.mpr ⟨ha, hga⟩
  have hbG : b ∈ l.filter (groupB u) :=
    List.mem_filter.mpr ⟨pruneFeed_subset hb, hgb⟩
  have hperm : List.Perm (sortRows (l.filter (groupB u))) (l.filter (groupB u)) :=
    List.perm_insertionSort articleLE _
  -- b is among the first 500 rows of the sorted group
  rcases List.mem_map.mp hkb with ⟨c, hc, hcb⟩
  have hcG : c ∈ l.filter (groupB u) :=
    hperm.mem_iff.mp (List.mem_of_mem_take hc)
  have hbc : b = c := List.inj_on_of_nodup_map hndG hbG hcG hcb.symm
  -- a is among the dropped rows of the sorted group
  have haS : a ∈ sortRows (l.filter (groupB u)) := hperm.mem_iff.mpr haG
  have haSplit := List.take_append_drop 500 (sortRows (l.filter (groupB u)))
  have haTD : a ∈ (sortRows (l.filter (groupB u))).take 500
      ∨ a ∈ (sortRows (l.filter (groupB u))).drop 500 := by
    rw [← List.mem_append, haSplit]; exact haS
  rcases haTD with hta | hda
  · exact absurd (List.mem_map.mpr ⟨a, hta, rfl⟩) hka
  · have hsorted : List.Sorted articleLE (sortRows (l.filter (groupB u))) :=
      List.sorted_insertionSort articleLE _
    have hbTake : b ∈ (sortRows (l.filter (groupB u))).take 500 := by
      rw [hbc]; exact hc
    exact hsorted.rel_of_mem_take_of_mem_drop hbTake hda

/-- When the group fits under the cap, pruning deletes nothing. -/
theorem pruneFeed_eq_self {u : String} {l : List Article}
    (h : (l.filter (groupB u)).length ≤ 500) :
    pruneFeed u l = l := by
  have hperm : List.Perm (sortRows (l.filter (groupB u))) (l.filter (groupB u)) :=
    List.perm_insertionSort articleLE _
  have hlen : (sortRows (l.filter (groupB u))).length ≤ 500 :=
    hperm.length_eq ▸ h
  have htake : (sortRows (l.filter (groupB u))).take 500
      = sortRows (l.filter (groupB u)) := List.take_of_length_le hlen
  refine List.filter_eq_self.mpr ?_
  intro a ha
  cases hg : groupB u a with
  | false => simp
  | true =>
    have haK : a.id ∈ keepIds u l := by
      unfold keepIds
      rw [htake]
      exact List.mem_map.mpr ⟨a, hperm.mem_iff.mpr (List.mem_filter.mpr ⟨ha, hg⟩), rfl⟩
    simp [haK]

/-- Applying the conflict-update twice with the same entry equals applying
it once. -/
theorem applyEntry_idem (pd : String → Int) (now : Int) (n : String)
    (e : Entry) (a : Article) :
    applyEntry pd now n e (applyEntry pd now n e a) = applyEntry pd now n e a := rfl

/-- When the table holds exactly one row c with the upserted entry's id, the
upsert step replaces it with the conflict-updated row. -/
theorem upsertOne_filter_hit {pd : String → Int} {now : Int} {u n : String}
    {arts : List Article} {e : Entry} {c : Article}
    (hid : entryId u e = c.id)
    (hf : arts.filter (fun b => b.id == c.id) = [c]) :
    (upsertOne pd now u n arts e).filter (fun b => b.id == c.id)
      = [applyEntry pd now n e c] := by
  have hcmem : c ∈ arts := by
    have : c ∈ arts.filter (fun b => b.id == c.id) := by
      rw [hf]; exact List.mem_singleton_self c
    exact List.mem_of_mem_filter this
  have hany : arts.any (fun a => a.id == entryId u e) = true :=
    List.any_eq_true.mpr ⟨c, hcmem, by rw [hid]; exact beq_self_eq_true c.id⟩
  unfold upsertOne
  rw [if_pos hany, hid,
    filter_id_map_hit (fun a => applyEntry_id pd now n e a), hf]
  rfl

/-- Folding the upsert over entries that either miss the id or are the
entry e itself keeps the id's unique row conflict-updated by e. -/
theorem foldl_upsert_filter_hit {pd : String → Int} {now : Int} {u n : String}
    {items : List Entry} {arts : List Article} {e : Entry} {a : Article}
    (hid : entryId u e = a.id)
    (huniq : ∀ e2 ∈ items, entryId u e2 = a.id → e2 = e)
    (hf : arts.filter (fun b => b.id == a.id) = [a] ∨
      arts.filter (fun b => b.id == a.id) = [applyEntry pd now n e a]) :
    (items.foldl (upsertOne pd now u n) arts).filter (fun b => b.id == a.id)
        = [a] ∨
    (items.foldl (upsertOne pd now u n) arts).filter (fun b => b.id == a.id)
        = [applyEntry pd now n e a] := by
  induction items generalizing arts with
  | nil => exact hf
  | cons e2 t ih =>
    simp only [List.foldl_cons]
    refine ih (fun x hx => huniq x (List.mem_cons_of_mem e2 hx) ) ?_
    by_cases h2 : entryId u e2 = a.id
    · have he2 : e2 = e := huniq e2 (List.mem_cons_self e2 t) h2
      subst he2
      rcases hf with hf | hf
      · right; exact upsertOne_filter_hit h2 hf
      · right
        have hstep := @upsertOne_filter_hit pd now u n arts e2
          (applyEntry pd now n e2 a)
          (by rw [applyEntry_id]; exact h2) (by rw [applyEntry_id]; exact hf)
        rw [applyEntry_id, applyEntry_idem] at hstep
        exact hstep
    · rcases hf with hf | hf
      · left; rw [upsertOne_filter_other h2]; exact hf
      · right; rw [upsertOne_filter_other h2]; exact hf

/-- Once the id's unique row is the conflict-updated row, further upserts of
entries that either miss the id or are e itself keep it unchanged. -/
theorem foldl_upsert_filter_keep {pd : String → Int} {now : Int} {u n : String}
    {items : List Entry} {arts : List Article} {e : Entry} {a : Article}
    (hid : entryId u e = a.id)
    (huniq : ∀ e2 ∈ items, entryId u e2 = a.id → e2 = e)
    (hf : arts.filter (fun b => b.id == a.id) = [applyEntry pd now n e a]) :
    (items.foldl (upsertOne pd now u n) arts).filter (fun b => b.id == a.id)
      = [applyEntry pd now n e a] := by
  induction items generalizing arts with
  | nil => exact hf
  | cons e2 t ih =>
    simp only [List.foldl_cons]
    refine ih (fun x hx => huniq x (List.mem_cons_of_mem e2 hx)) ?_
    by_cases h2 : entryId u e2 = a.id
    · have he2 : e2 = e := huniq e2 (List.mem_cons_self e2 t) h2
      subst he2
      have hstep := @upsertOne_filter_hit pd now u n arts e2
        (applyEntry pd now n e2 a)
        (by rw [applyEntry_id]; exact h2) (by rw [applyEntry_id]; exact hf)
      rw [applyEntry_id, applyEntry_idem] at hstep
      exact hstep
    · rw [upsertOne_filter_other h2]; exact hf

/-- The upsert fold leaves exactly the conflict-updated row at the id of a
stored row matched by exactly one entry. -/
theorem foldl_upsert_filter_eq {pd : String → Int} {now : Int} {u n : String}
    {items : List Entry} {arts : List Article} {e : Entry} {a : Article}
    (hnd : (arts.map Article.id).Nodup) (ha : a ∈ arts)
    (he : e ∈ items) (hid : entryId u e = a.id)
    (huniq : ∀ e2 ∈ items, entryId u e2 = a.id → e2 = e) :
    (items.foldl (upsertOne pd now u n) arts).filter (fun b => b.id == a.id)
      = [applyEntry pd now n e a] := by
  rcases List.append_of_mem he with ⟨s, t, rfl⟩
  have hs : ∀ e2 ∈ s, entryId u e2 = a.id → e2 = e := fun x hx =>
    huniq x (List.mem_append_left _ hx)
  have ht : ∀ e2 ∈ t, entryId u e2 = a.id → e2 = e := fun x hx =>
    huniq x (List.mem_append_right _ (List.mem_cons_of_mem e hx))
  rw [List.foldl_append, List.foldl_cons]
  have hmidS := @foldl_upsert_filter_hit pd now u n s arts e a hid hs
    (Or.inl (filter_id_singleton hnd ha))
  have hhit : (upsertOne pd now u n (s.foldl (upsertOne pd now u n) arts) e).filter
      (fun b => b.id == a.id) = [applyEntry pd now n e a] := by
    rcases hmidS with hm | hm
    · exact upsertOne_filter_hit hid hm
    · have hstep := @upsertOne_filter_hit pd now u n
        (s.foldl (upsertOne pd now u n) arts) e (applyEntry pd now n e a)
        (by rw [applyEntry_id]; exact hid) (by rw [applyEntry_id]; exact hm)
      rw [applyEntry_id, applyEntry_idem] at hstep
      exact hstep
  exact foldl_upsert_filter_keep hid ht hhit

/-- Filtering is unchanged by a row map that fixes every selected row and
never changes a row's selection status. -/
theorem filter_map_fix {p : Article → Bool} {f : Article → Article}
    {l : List Article}
    (hfix : ∀ a ∈ l, p a = true → f a = a)
    (hp : ∀ a, p (f a) = p a) :
    (l.map f).filter p = l.filter p := by
  induction l with
  | nil => rfl
  | cons a t ih =>
    have iht := ih (fun x hx => hfix x (List.mem_cons_of_mem a hx))
    cases hpa : p a with
    | true =>
      have hfa : f a = a := hfix a (List.mem_cons_self a t) hpa
      simp only [List.map_cons, List.filter_cons, hp a, hfa, hpa, if_true, iht]
    | false =>
      simp only [List.map_cons, List.filter_cons, hp a, hpa,
        Bool.false_eq_true, if_false, iht]

/-- One upsert step leaves the other-feed rows exactly in place, provided no
other-feed row carries the upserted entry's derived id. -/
theorem upsertOne_filter_feed {pd : String → Int} {now : Int} {u n : String}
    {arts : List Article} {e : Entry}
    (hids : ∀ a ∈ arts, a.feed_url ≠ u → a.id ≠ entryId u e) :
    (upsertOne pd now u n arts e).filter (fun a => !(a.feed_url == u))
      = arts.filter (fun a => !(a.feed_url == u)) := by
  unfold upsertOne
  by_cases hany : arts.any (fun a => a.id == entryId u e) = true
  · rw [if_pos hany]
    refine filter_map_fix ?_ ?_
    · intro a ha hpa
      have hne : a.feed_url ≠ u := by
        intro heq
        rw [beq_iff_eq.mpr heq] at hpa
        cases hpa
      rw [if_neg ?_]
      intro hcon
      exact hids a ha hne (beq_iff_eq.mp hcon)
    · intro a
      by_cases hc : (a.id == entryId u e) = true
      · rw [if_pos hc]; rfl
      · rw [if_neg hc]
  · rw [if_neg hany, List.filter_append]
    have : (!((insertEntry pd now u n e).feed_url == u)) = false := by
      simp [insertEntry]
    simp [List.filter_cons, this]

/-- The upsert fold leaves the other-feed rows exactly in place, provided no
other-feed row carries any upserted entry's derived id. -/
theorem foldl_upsert_filter_feed {pd : String → Int} {now : Int} {u n : String}
    {items : List Entry} {arts : List Article}
    (hids : ∀ a ∈ arts, a.feed_url ≠ u → ∀ e ∈ items, a.id ≠ entryId u e) :
    (items.foldl (upsertOne pd now u n) arts).filter (fun a => !(a.feed_url == u))
      = arts.filter (fun a => !(a.feed_url == u)) := by
  induction items generalizing arts with
  | nil => rfl
  | cons e t ih =>
    simp only [List.foldl_cons]
    have hstep : (upsertOne pd now u n arts e).filter (fun a => !(a.feed_url == u))
        = arts.filter (fun a => !(a.feed_url == u)) :=
      upsertOne_filter_feed (fun a ha hne =>
        hids a ha hne e (List.mem_cons_self e t))
    have hids2 : ∀ a ∈ upsertOne pd now u n arts e, a.feed_url ≠ u →
        ∀ e2 ∈ t, a.id ≠ entryId u e2 := by
      intro a ha hne e2 he2
      have haf : a ∈ (upsertOne pd now u n arts e).filter
          (fun x => !(x.feed_url == u)) := by
        refine List.mem_filter.mpr ⟨ha, ?_⟩
        rw [beq_eq_false_iff_ne.mpr hne]
        rfl
      rw [hstep] at haf
      exact hids a (List.mem_of_mem_filter haf) hne e2
        (List.mem_cons_of_mem e he2)
    rw [ih hids2, hstep]

/-- Pruning leaves the other-feed rows exactly in place. -/
theorem pruneFeed_filter_feed (u : String) (l : List Article) :
    (pruneFeed u l).filter (fun a => !(a.feed_url == u))
      = l.filter (fun a => !(a.feed_url == u)) := by
  unfold pruneFeed
  rw [List.filter_filter]
  refine List.filter_congr ?_
  intro a _
  cases hfe : a.feed_url == u with
  | true => rfl
  | false =>
    have hg : groupB u a = false := by
      unfold groupB
      rw [hfe, Bool.and_false]
    rw [hg]
    rfl

/-- Claim C1: removeFeed deletes the Feed row with the given url and every
Article whose feedUrl equals that url, and leaves the Articles of every
other feed unchanged (in particular their rows and relative order are
exactly preserved). -/
theorem C1_removeFeed_cascade (u : String) (st : Store) :
    ((removeFeed u st).feeds = st.feeds.filter (fun f => !(f.url == u))) ∧
    (∀ f ∈ (removeFeed u st).feeds, f.url ≠ u) ∧
    (∀ a ∈ (removeFeed u st).articles, a ∈ st.articles ∧ a.feed_url ≠ u) ∧
    (∀ a ∈ st.articles, a.feed_url ≠ u → a ∈ (removeFeed u st).articles) ∧
    ((removeFeed u st).articles
      = st.articles.filter (fun a => !(a.feed_url == u))) ∧
    ((removeFeed u st).migratedMarker = st.migratedMarker) := by
  refine ⟨rfl, ?_, ?_, ?_, rfl, rfl⟩
  · intro f hf
    have := List.of_mem_filter hf
    simpa using this
  · intro a ha
    refine ⟨List.mem_of_mem_filter ha, ?_⟩
    have := List.of_mem_filter ha
    simpa using this
  · intro a ha hne
    refine List.mem_filter.mpr ⟨ha, ?_⟩
    simpa using hne

/-- Witness for C1: removing feed u from the concrete store keeps feed v's
article and satisfies every conjunct at that input. -/
theorem C1_removeFeed_cascade_witness :
    ((removeFeed "u" wStore).feeds
        = wStore.feeds.filter (fun f => !(f.url == "u"))) ∧
    ((removeFeed "u" wStore).articles
        = wStore.articles.filter (fun a => !(a.feed_url == "u"))) ∧
    wStore.articles.get ⟨1, by decide⟩ ∈ (removeFeed "u" wStore).articles := by
  refine ⟨(C1_removeFeed_cascade "u" wStore).1,
          (C1_removeFeed_cascade "u" wStore).2.2.2.2.1, ?_⟩
  exact (C1_removeFeed_cascade "u" wStore).2.2.2.1
    (wStore.articles.get ⟨1, by decide⟩) (by decide) (by decide)

/-- Claim C2: when a stored article is matched by exactly one entry of the
upserted list (same derived id), upsertArticles rewrites its descriptive
fields (title, link, content, author, published, publishedTs, feedName,
fetchedAt) to the entry's new values while keeping is_read and is_starred
exactly as they were: the conflict-updated row is in the post-upsert table,
and any row with that id — there as well as after the pruning step that ends
the call — carries the new descriptive fields and the old flags. -/
theorem C2_upsert_sticky_flags (pd : String → Int) (now : Int) (u n : String)
    (items : List Entry) (arts : List Article) (a : Article) (e : Entry)
    (hnd : (arts.map Article.id).Nodup) (ha : a ∈ arts) (he : e ∈ items)
    (hid : entryId u e = a.id)
    (huniq : ∀ e2 ∈ items, entryId u e2 = a.id → e2 = e) :
    (applyEntry pd now n e a ∈ items.foldl (upsertOne pd now u n) arts) ∧
    (∀ b ∈ items.foldl (upsertOne pd now u n) arts, b.id = a.id →
      b.is_read = a.is_read ∧ b.is_starred = a.is_starred ∧
      b.title = e.title ∧ b.link = e.link ∧ b.published = e.published ∧
      b.published_ts = entryTs pd e ∧ b.content = e.content ∧
      b.author = e.author ∧ b.feed_name = n ∧ b.fetched_at = now) ∧
    (∀ b ∈ upsertArticles pd now u n items arts, b.id = a.id →
      b.is_read = a.is_read ∧ b.is_starred = a.is_starred ∧
      b.title = e.title ∧ b.content = e.content ∧ b.fetched_at = now) := by
  have hfe := @foldl_upsert_filter_eq pd now u n items arts e a hnd ha he hid huniq
  have hbeq : ∀ b ∈ items.foldl (upsertOne pd now u n) arts, b.id = a.id →
      b = applyEntry pd now n e a := by
    intro b hb hbid
    have hbf : b ∈ (items.foldl (upsertOne pd now u n) arts).filter
        (fun x => x.id == a.id) :=
      List.mem_filter.mpr ⟨hb, beq_iff_eq.mpr hbid⟩
    rw [hfe] at hbf
    exact List.mem_singleton.mp hbf
  refine ⟨?_, ?_, ?_⟩
  · have hmem : applyEntry pd now n e a
        ∈ (items.foldl (upsertOne pd now u n) arts).filter
          (fun x => x.id == a.id) := by
      rw [hfe]; exact List.mem_singleton_self _
    exact List.mem_of_mem_filter hmem
  · intro b hb hbid
    obtain rfl := hbeq b hb hbid
    exact ⟨rfl, rfl, rfl, rfl, rfl, rfl, rfl, rfl, rfl, rfl⟩
  · intro b hb hbid
    unfold upsertArticles at hb
    obtain rfl := hbeq b (pruneFeed_subset hb) hbid
    exact ⟨rfl, rfl, rfl, rfl, rfl⟩

/-- Witness for C2: re-upserting the known entry wEntry over the read and
starred row wOld keeps both flags set while the descriptive fields update to
the entry's values. -/
theorem C2_upsert_sticky_flags_witness :
    (applyEntry pdW 7 "N" wEntry wOld).is_read = wOld.is_read ∧
    (applyEntry pdW 7 "N" wEntry wOld).is_starred = wOld.is_starred ∧
    (applyEntry pdW 7 "N" wEntry wOld).title = wEntry.title ∧
    (applyEntry pdW 7 "N" wEntry wOld).content = wEntry.content ∧
    (applyEntry pdW 7 "N" wEntry wOld).fetched_at = 7 := by
  have h := (C2_upsert_sticky_flags pdW 7 "u" "N" [wEntry] [wOld] wOld wEntry
    (by decide) (by decide) (by decide) (by decide) (by decide)).2.2
    (applyEntry pdW 7 "N" wEntry wOld) (by decide) (by decide)
  exact ⟨h.1, h.2.1, h.2.2.1, h.2.2.2.1, h.2.2.2.2⟩

/-- Claim C3: after any upsertArticles call the store keeps at most 500
non-starred articles of the upserted feed; no starred row of the post-upsert
table is deleted by the pruning step; and every non-starred row of the feed
that pruning keeps is at least as new, by (publishedTs, fetchedAt)
descending, as every row it deletes — so the survivors are 500 newest. -/
theorem C3_prune_cap_starred_exempt (pd : String → Int) (now : Int)
    (u n : String) (items : List Entry) (arts : List Article)
    (hnd : (arts.map Article.id).Nodup) :
    (((upsertArticles pd now u n items arts).filter (groupB u)).length ≤ 500) ∧
    (∀ a ∈ items.foldl (upsertOne pd now u n) arts, a.is_starred ≠ 0 →
      a ∈ upsertArticles pd now u n items arts) ∧
    (∀ a ∈ items.foldl (upsertOne pd now u n) arts,
      a ∉ upsertArticles pd now u n items arts →
      ∀ b ∈ upsertArticles pd now u n items arts, groupB u b = true →
        articleLE b a) := by
  have hndMid : ((items.foldl (upsertOne pd now u n) arts).map Article.id).Nodup :=
    foldl_upsert_nodup hnd
  refine ⟨?_, ?_, ?_⟩
  · unfold upsertArticles
    exact pruneFeed_cap hndMid
  · intro a ha hs
    unfold upsertArticles
    refine pruneFeed_mem_of_not_group ha ?_
    unfold groupB
    rw [beq_eq_false_iff_ne.mpr hs]
    rfl
  · intro a ha hdel b hb hgb
    unfold upsertArticles at hdel hb
    exact pruneFeed_kept_newest hndMid ha hdel hb hgb

/-- Witness for C3: upserting one entry over a table holding one starred row
of the same feed keeps the cap and keeps the starred row. -/
theorem C3_prune_cap_starred_exempt_witness :
    (((upsertArticles pdW 0 "u" "N" [wEntry] [wStarred]).filter
        (groupB "u")).length ≤ 500) ∧
    wStarred ∈ upsertArticles pdW 0 "u" "N" [wEntry] [wStarred] := by
  refine ⟨(C3_prune_cap_starred_exempt pdW 0 "u" "N" [wEntry] [wStarred]
    (by decide)).1, ?_⟩
  exact (C3_prune_cap_starred_exempt pdW 0 "u" "N" [wEntry] [wStarred]
    (by decide)).2.1 wStarred (by decide) (by decide)

/-- Claim C4 (amended): an upsertArticles call leaves every Article of a
different feed unchanged — neither updated nor deleted by pruning, even when
that other feed exceeds the cap — provided no other-feed Article carries the
derived id of one of the upserted entries: the other-feed rows of the table,
in order, are exactly what they were.  (Without the proviso the conflict
clause can update an other-feed row in place, see the counterexample.) -/
theorem C4_other_feed_frame (pd : String → Int) (now : Int) (u n : String)
    (items : List Entry) (arts : List Article)
    (hids : ∀ a ∈ arts, a.feed_url ≠ u → ∀ e ∈ items, a.id ≠ entryId u e) :
    (upsertArticles pd now u n items arts).filter (fun a => !(a.feed_url == u))
      = arts.filter (fun a => !(a.feed_url == u)) := by
  unfold upsertArticles
  rw [pruneFeed_filter_feed, foldl_upsert_filter_feed hids]

/-- Witness for C4: upserting feed u over a table that also holds feed v's
row leaves feed v's part of the table literally unchanged. -/
theorem C4_other_feed_frame_witness :
    (upsertArticles pdW 3 "u" "N" [wEntry] [wOld, vArt]).filter
        (fun a => !(a.feed_url == "u"))
      = [wOld, vArt].filter (fun a => !(a.feed_url == "u")) := by
  refine C4_other_feed_frame pdW 3 "u" "N" [wEntry] [wOld, vArt] ?_
  decide

/-- Every upsert step leaves some row carrying the entry's derived id. -/
theorem upsertOne_mem_id (pd : String → Int) (now : Int) (u n : String)
    (arts : List Article) (e : Entry) :
    ∃ b ∈ upsertOne pd now u n arts e, b.id = entryId u e := by
  unfold upsertOne
  by_cases hany : arts.any (fun a => a.id == entryId u e) = true
  · rcases List.any_eq_true.mp hany with ⟨a, ha, hae⟩
    rw [if_pos hany]
    refine ⟨if a.id == entryId u e then applyEntry pd now n e a else a,
      List.mem_map.mpr ⟨a, ha, rfl⟩, ?_⟩
    rw [if_pos hae, applyEntry_id]
    exact beq_iff_eq.mp hae
  · rw [if_neg hany]
    exact ⟨insertEntry pd now u n e,
      List.mem_append_right _ (List.mem_singleton_self _), rfl⟩

/-- Inserting an element that every list element may precede keeps it last. -/
theorem orderedInsert_append_last {α : Type} {r : α → α → Prop}
    [DecidableRel r] {a x : α} (s : List α) (h : r a x) :
    List.orderedInsert r a (s ++ [x]) = List.orderedInsert r a s ++ [x] := by
  induction s with
  | nil => simp [List.orderedInsert, h]
  | cons b t ih =>
    by_cases hb : r a b
    · simp [List.orderedInsert, hb]
    · simp [List.orderedInsert, hb, ih]

/-- Sorting a list extended with an element that every list element may
precede keeps that element last (stability of insertion sort). -/
theorem insertionSort_append_last {α : Type} {r : α → α → Prop}
    [DecidableRel r] {x : α} (l : List α) (h : ∀ y ∈ l, r y x) :
    List.insertionSort r (l ++ [x]) = List.insertionSort r l ++ [x] := by
  induction l with
  | nil => simp [List.insertionSort, List.orderedInsert]
  | cons a t ih =>
    simp only [List.cons_append, List.insertionSort, List.append_eq]
    rw [ih (fun y hy => h y (List.mem_cons_of_mem a hy))]
    exact orderedInsert_append_last _ (h a (List.mem_cons_self a t))

/-- When a feed already has exactly 500 non-starred rows, appending one more
non-starred row of the feed that every group row is at least as new as, and
whose id is fresh, makes pruning delete precisely the appended row. -/
theorem pruneFeed_append_older {u : String} {arts : List Article} {x : Article}
    (hlen : (arts.filter (groupB u)).length = 500)
    (hgx : groupB u x = true)
    (hord : ∀ a ∈ arts.filter (groupB u), articleLE a x)
    (hxid : ∀ a ∈ arts, a.id ≠ x.id) :
    pruneFeed u (arts ++ [x]) = arts := by
  have hfilter : (arts ++ [x]).filter (groupB u)
      = arts.filter (groupB u) ++ [x] := by
    rw [List.filter_append]
    simp [List.filter_cons, hgx]
  have hsort : sortRows ((arts ++ [x]).filter (groupB u))
      = sortRows (arts.filter (groupB u)) ++ [x] := by
    rw [hfilter]
    exact insertionSort_append_last _ hord
  have hslen : (sortRows (arts.filter (groupB u))).length = 500 := by
    unfold sortRows
    rw [(List.perm_insertionSort articleLE (arts.filter (groupB u))).length_eq]
    exact hlen
  have hkeep : keepIds u (arts ++ [x])
      = (sortRows (arts.filter (groupB u))).map Article.id := by
    unfold keepIds
    rw [hsort, List.take_left' hslen]
  have hmem_keep : ∀ a ∈ arts, groupB u a = true →
      a.id ∈ keepIds u (arts ++ [x]) := by
    intro a ha hg
    rw [hkeep]
    refine List.mem_map.mpr ⟨a, ?_, rfl⟩
    exact (List.perm_insertionSort articleLE _).mem_iff.mpr
      (List.mem_filter.mpr ⟨ha, hg⟩)
  have hx_not_keep : x.id ∉ keepIds u (arts ++ [x]) := by
    intro hxk
    rw [hkeep] at hxk
    rcases List.mem_map.mp hxk with ⟨c, hcs, hcid⟩
    have hcg : c ∈ arts.filter (groupB u) :=
      (List.perm_insertionSort articleLE _).mem_iff.mp hcs
    exact absurd hcid (hxid c (List.mem_of_mem_filter hcg))
  unfold pruneFeed
  rw [List.filter_append]
  have hx_del : [x].filter (fun a =>
      !(groupB u a && !((keepIds u (arts ++ [x])).contains a.id))) = [] := by
    simp [List.filter_cons, hgx, hx_not_keep]
  have harts : arts.filter (fun a =>
      !(groupB u a && !((keepIds u (arts ++ [x])).contains a.id))) = arts := by
    refine List.filter_eq_self.mpr ?_
    intro a ha
    cases hg : groupB u a with
    | false => simp
    | true => simp [hg, hmem_keep a ha hg]
  rw [harts, hx_del, List.append_nil]

/-- The ids of the 500 stored rows of the C7 counterexample are all
one-character strings, so none is the four-character derived id "u::l". -/
theorem full500_id_ne : ∀ a ∈ full500, a.id ≠ "u::l" := by
  intro a ha
  rcases List.mem_map.mp ha with ⟨i, _, rfl⟩
  intro hcon
  have hlen := congrArg String.length hcon
  have h1 : ((oldArt i).id).length = 1 := rfl
  have h4 : ("u::l" : String).length = 4 := rfl
  rw [h1, h4] at hlen
  cases hlen

/-- Every row of the C7 counterexample store is in the pruned group of
feed u. -/
theorem full500_group : full500.filter (groupB "u") = full500 := by
  refine List.filter_eq_self.mpr ?_
  intro a ha
  rcases List.mem_map.mp ha with ⟨i, _, rfl⟩
  rfl

/-- The C7 counterexample store holds exactly 500 group rows. -/
theorem full500_len : (full500.filter (groupB "u")).length = 500 := by
  rw [full500_group]
  unfold full500
  rw [List.length_map, List.length_range]

/-- Upserting e0 into the saturated store inserts its row and then pruning
deletes that same row: the store is left unchanged. -/
theorem upsert_e0_full500 :
    upsertArticles pdW 0 "u" "n" [e0] full500 = full500 := by
  have hany : full500.any (fun a => a.id == entryId "u" e0) = false := by
    cases h : full500.any (fun a => a.id == entryId "u" e0) with
    | false => rfl
    | true =>
      rcases List.any_eq_true.mp h with ⟨a, ha, hbeq⟩
      exact absurd (beq_iff_eq.mp hbeq) (full500_id_ne a ha)
  have hfold : [e0].foldl (upsertOne pdW 0 "u" "n") full500
      = full500 ++ [insertEntry pdW 0 "u" "n" e0] := by
    simp only [List.foldl_cons, List.foldl_nil]
    unfold upsertOne
    rw [hany]
    rfl
  unfold upsertArticles
  rw [hfold]
  refine pruneFeed_append_older full500_len rfl ?_ ?_
  · intro a ha
    rw [full500_group] at ha
    rcases List.mem_map.mp ha with ⟨i, _, rfl⟩
    refine Or.inl ?_
    show (0 : Int) < 1
    decide
  · exact full500_id_ne

/-- Counterexample to C7 as stated: with 500 strictly newer non-starred
articles of the same feed already stored, upserting the entry e0 twice
leaves ZERO stored articles with its derived id — the freshly inserted row
is deleted again by the per-feed pruning each time — not exactly one. -/
theorem C7_counterexample :
    ((upsertArticles pdW 0 "u" "n" [e0]
        (upsertArticles pdW 0 "u" "n" [e0] full500)).filter
      (fun b => b.id == entryId "u" e0)).length = 0 := by
  rw [upsert_e0_full500, upsert_e0_full500]
  have hid : entryId "u" e0 = "u::l" := rfl
  rw [hid, filter_id_nil (fun b hb => full500_id_ne b hb)]
  rfl

/-- Under globally unique ids, at most one row carries any given id. -/
theorem filter_id_len_le_one {l : List Article} (i : String)
    (hnd : (l.map Article.id).Nodup) :
    (l.filter (fun b => b.id == i)).length ≤ 1 := by
  induction l with
  | nil => simp
  | cons a t ih =>
    simp only [List.map_cons, List.nodup_cons, List.mem_map] at hnd
    cases hb : a.id == i with
    | true =>
      have hai : a.id = i := beq_iff_eq.mp hb
      have ht : t.filter (fun b => b.id == i) = [] := by
        refine filter_id_nil ?_
        intro b hbt hbe
        exact hnd.1 ⟨b, hbt, hbe.trans hai.symm⟩
      simp [List.filter_cons, hb, ht]
    | false =>
      simp only [List.filter_cons, hb, Bool.false_eq_true, if_false]
      exact ih hnd.2

/-- Pruning, a plain DELETE, preserves global id uniqueness. -/
theorem pruneFeed_nodup {u : String} {l : List Article}
    (hnd : (l.map Article.id).Nodup) :
    ((pruneFeed u l).map Article.id).Nodup := by
  unfold pruneFeed
  exact ((List.filter_sublist l).map Article.id).nodup hnd

/-- A whole upsertArticles call preserves global id uniqueness: it never
accumulates duplicate rows. -/
theorem upsertArticles_nodup {pd : String → Int} {now : Int} {u n : String}
    {items : List Entry} {arts : List Article}
    (hnd : (arts.map Article.id).Nodup) :
    ((upsertArticles pd now u n items arts).map Article.id).Nodup := by
  unfold upsertArticles
  exact pruneFeed_nodup (foldl_upsert_nodup hnd)

/-- Claim C7 (amended): the derived id is the deterministic function
feedUrl ++ "::" ++ (link when non-empty, else title) of the entry; repeated
upserts never accumulate duplicate rows (the stored ids stay pairwise
distinct); and, provided the per-feed pruning does not delete the entry's
row — that is, some stored row carries the derived id after each of the two
calls — exactly one stored Article with that derived id remains, whose
isRead/isStarred equal those of the row left by the first call and whose
fetchedAt is the second call's timestamp.  (Without the survival proviso the
row can be pruned away entirely, see the counterexample.) -/
theorem C7_upsert_dedup_idempotent (pd : String → Int) (now1 now2 : Int)
    (u n : String) (e : Entry) (arts : List Article)
    (hnd : (arts.map Article.id).Nodup) :
    (entryId u e = u ++ "::" ++ (if e.link = "" then e.title else e.link)) ∧
    (((upsertArticles pd now2 u n [e] (upsertArticles pd now1 u n [e] arts)).map
        Article.id).Nodup) ∧
    ((∃ b ∈ upsertArticles pd now1 u n [e] arts, b.id = entryId u e) →
     (∃ b ∈ upsertArticles pd now2 u n [e] (upsertArticles pd now1 u n [e] arts),
        b.id = entryId u e) →
      ((upsertArticles pd now2 u n [e] (upsertArticles pd now1 u n [e] arts)).filter
          (fun b => b.id == entryId u e)).length = 1 ∧
      (∀ b ∈ upsertArticles pd now2 u n [e] (upsertArticles pd now1 u n [e] arts),
        b.id = entryId u e → b.fetched_at = now2 ∧
          ∃ c ∈ upsertArticles pd now1 u n [e] arts,
            c.id = b.id ∧ b.is_read = c.is_read ∧ b.is_starred = c.is_starred)) := by
  have hnd1 : ((upsertArticles pd now1 u n [e] arts).map Article.id).Nodup :=
    upsertArticles_nodup hnd
  have hnd2 : ((upsertArticles pd now2 u n
      [e] (upsertArticles pd now1 u n [e] arts)).map Article.id).Nodup :=
    upsertArticles_nodup hnd1
  refine ⟨rfl, hnd2, ?_⟩
  rintro ⟨c1, hc1mem, hc1id⟩ ⟨b2, hb2mem, hb2id⟩
  have hshape : upsertArticles pd now2 u n [e] (upsertArticles pd now1 u n [e] arts)
      = pruneFeed u (upsertOne pd now2 u n (upsertArticles pd now1 u n [e] arts) e) :=
    rfl
  have hf1 : (upsertArticles pd now1 u n [e] arts).filter
      (fun b => b.id == c1.id) = [c1] := filter_id_singleton hnd1 hc1mem
  have hf2 : (upsertOne pd now2 u n (upsertArticles pd now1 u n [e] arts) e).filter
      (fun b => b.id == c1.id) = [applyEntry pd now2 n e c1] :=
    upsertOne_filter_hit (hc1id.symm ▸ rfl) hf1
  have hbeq : ∀ b ∈ upsertArticles pd now2 u n
      [e] (upsertArticles pd now1 u n [e] arts),
      b.id = entryId u e → b = applyEntry pd now2 n e c1 := by
    intro b hb hbid
    have hbmid : b ∈ upsertOne pd now2 u n (upsertArticles pd now1 u n [e] arts) e := by
      rw [hshape] at hb
      exact pruneFeed_subset hb
    have hbf : b ∈ (upsertOne pd now2 u n
        (upsertArticles pd now1 u n [e] arts) e).filter
        (fun x => x.id == c1.id) :=
      List.mem_filter.mpr ⟨hbmid, beq_iff_eq.mpr (hbid.trans hc1id.symm)⟩
    rw [hf2] at hbf
    exact List.mem_singleton.mp hbf
  have happ_mem : applyEntry pd now2 n e c1
      ∈ upsertArticles pd now2 u n [e] (upsertArticles pd now1 u n [e] arts) :=
    hbeq b2 hb2mem hb2id ▸ hb2mem
  refine ⟨?_, ?_⟩
  · have hle := filter_id_len_le_one (entryId u e) hnd2
    have happf : applyEntry pd now2 n e c1
        ∈ (upsertArticles pd now2 u n
          [e] (upsertArticles pd now1 u n [e] arts)).filter
          (fun b => b.id == entryId u e) :=
      List.mem_filter.mpr ⟨happ_mem,
        beq_iff_eq.mpr (by rw [applyEntry_id]; exact hc1id)⟩
    have hge := List.length_pos_of_mem happf
    omega
  · intro b hb hbid
    obtain rfl := hbeq b hb hbid
    exact ⟨rfl, c1, hc1mem, by rw [applyEntry_id], rfl, rfl⟩

/-- Witness for C7 (amended): upserting wEntry twice into an empty table
yields exactly one row with the derived id "u::l". -/
theorem C7_upsert_dedup_idempotent_witness :
    ((upsertArticles pdW 2 "u" "N" [wEntry]
        (upsertArticles pdW 1 "u" "N" [wEntry] [])).filter
      (fun b => b.id == entryId "u" wEntry)).length = 1 :=
  ((C7_upsert_dedup_idempotent pdW 1 2 "u" "N" wEntry []
    (by decide)).2.2 (by decide) (by decide)).1

/-- Counterexample to C4 as stated: the stored article colArt belongs to
feed B, yet upserting colEntry for the feed url "a" updates it in place (its
derived id collides), so an Article of a different feed is changed by the
call. -/
theorem C4_counterexample :
    colArt.feed_url ≠ "a" ∧
    colArt ∉ upsertArticles pdW 9 "a" "N" [colEntry] [colArt] ∧
    (upsertArticles pdW 9 "a" "N" [colEntry] [colArt]).map Article.title
      = ["x"] := by decide

/-! Lemmas about insert-if-absent, the natural-key insertion used by the
legacy migration. -/

/-- insert-if-absent is a no-op when the key is already present. -/
theorem insAbs_of_present {α ρ : Type} (k : ρ → String) (ki : α → String)
    (mk : α → ρ) {s : List ρ} {x : α}
    (h : s.any (fun r => k r == ki x) = true) :
    insAbs k ki mk s x = s := by
  unfold insAbs
  rw [if_pos h]

/-- insert-if-absent only ever appends rows at the end. -/
theorem insAbs_append {α ρ : Type} (k : ρ → String) (ki : α → String)
    (mk : α → ρ) (s : List ρ) (x : α) :
    insAbs k ki mk s x = s ∨ insAbs k ki mk s x = s ++ [mk x] := by
  unfold insAbs
  by_cases h : s.any (fun r => k r == ki x) = true
  · left; rw [if_pos h]
  · right; rw [if_neg h]

/-- After insert-if-absent, the inserted record's key is present. -/
theorem insAbs_present_self {α ρ : Type} (k : ρ → String) (ki : α → String)
    (mk : α → ρ) (hmk : ∀ y, k (mk y) = ki y) (s : List ρ) (x : α) :
    (insAbs k ki mk s x).any (fun r => k r == ki x) = true := by
  unfold insAbs
  by_cases h : s.any (fun r => k r == ki x) = true
  · rw [if_pos h]; exact h
  · rw [if_neg h]
    refine List.any_eq_true.mpr
      ⟨mk x, List.mem_append_right _ (List.mem_singleton_self _), ?_⟩
    rw [hmk x]
    exact beq_self_eq_true _

/-- Key presence is preserved by further insert-if-absent steps, also folded
over a whole list. -/
theorem foldl_insAbs_present_mono {α ρ : Type} (k : ρ → String)
    (ki : α → String) (mk : α → ρ) {s : List ρ} {key : String}
    (h : s.any (fun r => k r == key) = true) (l : List α) :
    (l.foldl (insAbs k ki mk) s).any (fun r => k r == key) = true := by
  induction l generalizing s with
  | nil => exact h
  | cons a t ih =>
    simp only [List.foldl_cons]
    refine ih ?_
    rcases insAbs_append k ki mk s a with he | he
    · rw [he]; exact h
    · rw [he]
      rcases List.any_eq_true.mp h with ⟨r, hr, hbr⟩
      exact List.any_eq_true.mpr ⟨r, List.mem_append_left _ hr, hbr⟩

/-- Re-running insert-if-absent over a full list after a prefix of it was
already applied gives the same result as running over the full list alone:
the interrupted-and-retried migration inserts nothing twice. -/
theorem foldl_insAbs_prefix {α ρ : Type} (k : ρ → String) (ki : α → String)
    (mk : α → ρ) (hmk : ∀ y, k (mk y) = ki y) {p l : List α}
    (hp : List.IsPrefix p l) (s : List ρ) :
    l.foldl (insAbs k ki mk) (p.foldl (insAbs k ki mk) s)
      = l.foldl (insAbs k ki mk) s := by
  induction p generalizing l s with
  | nil => rfl
  | cons a p2 ih =>
    rcases hp with ⟨t, ht⟩
    subst ht
    simp only [List.cons_append, List.foldl_cons]
    have hpres : ((p2.foldl (insAbs k ki mk) (insAbs k ki mk s a))).any
        (fun r => k r == ki a) = true :=
      foldl_insAbs_present_mono k ki mk (insAbs_present_self k ki mk hmk s a) p2
    rw [List.foldl_append, insAbs_of_present k ki mk hpres,
      ← List.foldl_append]
    exact ih ⟨t, rfl⟩ (insAbs k ki mk s a)

/-- Insert-if-absent folds preserve key uniqueness. -/
theorem foldl_insAbs_nodup {α ρ : Type} (k : ρ → String) (ki : α → String)
    (mk : α → ρ) (hmk : ∀ y, k (mk y) = ki y) {s : List ρ}
    (hnd : (s.map k).Nodup) (l : List α) :
    ((l.foldl (insAbs k ki mk) s).map k).Nodup := by
  induction l generalizing s with
  | nil => exact hnd
  | cons a t ih =>
    simp only [List.foldl_cons]
    refine ih ?_
    unfold insAbs
    by_cases h : s.any (fun r => k r == ki a) = true
    · rw [if_pos h]; exact hnd
    · rw [if_neg h, List.map_append, List.map_singleton, hmk a]
      refine List.Nodup.append hnd (List.nodup_singleton _) ?_
      intro key hks hka
      rcases List.mem_singleton.mp hka with rfl
      rcases List.mem_map.mp hks with ⟨r, hr, hrk⟩
      exact h (List.any_eq_true.mpr ⟨r, hr, beq_iff_eq.mpr hrk⟩)

/-- Insert-if-absent folds extend the table: the original rows stay in
place, in order, and new rows are only appended after them. -/
theorem foldl_insAbs_extends {α ρ : Type} (k : ρ → String) (ki : α → String)
    (mk : α → ρ) (s : List ρ) (l : List α) :
    ∃ ext, l.foldl (insAbs k ki mk) s = s ++ ext := by
  induction l generalizing s with
  | nil => exact ⟨[], (List.append_nil s).symm⟩
  | cons a t ih =>
    simp only [List.foldl_cons]
    rcases insAbs_append k ki mk s a with he | he
    · rw [he]; exact ih s
    · rw [he]
      rcases ih (s ++ [mk a]) with ⟨ext, hext⟩
      exact ⟨[mk a] ++ ext, by rw [hext, List.append_assoc]⟩

/-- The migration always leaves the marker committed. -/
theorem import_marker_set (pd : String → Int) (nowIso : String) (now : Int)
    (st : Store) (ls : LocalStorageState) :
    (importFromLocalStorageIfNeeded pd nowIso now st ls).1.migratedMarker
      = some "1" := by
  unfold importFromLocalStorageIfNeeded
  by_cases h : st.migratedMarker = some "1"
  · rw [if_pos h]; exact h
  · rw [if_neg h]
    by_cases hd : hasLegacyData ls = true
    · rw [if_pos hd]
    · rw [if_neg hd]

/-- Once the marker is committed, the migration is a no-op. -/
theorem import_noop_of_marker (pd : String → Int) (nowIso : String)
    (now : Int) (st : Store) (ls : LocalStorageState)
    (h : st.migratedMarker = some "1") :
    importFromLocalStorageIfNeeded pd nowIso now st ls = (st, ls) := by
  unfold importFromLocalStorageIfNeeded
  rw [if_pos h]

/-- Without legacy data neither legacy key holds any record. -/
theorem hasLegacyData_false {ls : LocalStorageState}
    (h : hasLegacyData ls = false) :
    ls.feeds.getD [] = [] ∧ ls.articles.getD [] = [] := by
  unfold hasLegacyData at h
  rw [Bool.or_eq_false_iff] at h
  constructor
  · rcases hf : ls.feeds with _ | fs
    · rfl
    · have := h.1
      rw [hf] at this
      simp only [decide_eq_false_iff_not, Nat.not_lt, Nat.le_zero] at this
      simp [List.length_eq_zero.mp this]
  · rcases ha : ls.articles with _ | la
    · rfl
    · have := h.2
      rw [ha] at this
      simp only [decide_eq_false_iff_not, Nat.not_lt, Nat.le_zero] at this
      simp [List.length_eq_zero.mp this]

/-- Case analysis on the three branches of the migration. -/
theorem import_cases (pd : String → Int) (nowIso : String) (now : Int)
    (st : Store) (ls : LocalStorageState) :
    (st.migratedMarker = some "1" ∧
      importFromLocalStorageIfNeeded pd nowIso now st ls = (st, ls)) ∨
    (st.migratedMarker ≠ some "1" ∧ hasLegacyData ls = true ∧
      importFromLocalStorageIfNeeded pd nowIso now st ls =
        ({ feeds := (ls.feeds.getD []).foldl (migFeedStep pd nowIso) st.feeds,
           articles := (ls.articles.getD []).foldl
             (migArtStep pd now ls.readMap ls.starredMap) st.articles,
           migratedMarker := some "1" }, clearedLS)) ∨
    (st.migratedMarker ≠ some "1" ∧ hasLegacyData ls = false ∧
      importFromLocalStorageIfNeeded pd nowIso now st ls =
        ({ st with migratedMarker := some "1" }, ls)) := by
  by_cases hm : st.migratedMarker = some "1"
  · exact Or.inl ⟨hm, import_noop_of_marker pd nowIso now st ls hm⟩
  · by_cases hd : hasLegacyData ls = true
    · refine Or.inr (Or.inl ⟨hm, hd, ?_⟩)
      unfold importFromLocalStorageIfNeeded
      rw [if_neg hm, if_pos hd]
    · refine Or.inr (Or.inr ⟨hm, Bool.not_eq_true _ ▸ hd, ?_⟩)
      unfold importFromLocalStorageIfNeeded
      rw [if_neg hm, if_neg hd]

/-- Claim C5: the legacy migration is idempotent and interruption-safe:
once the marker is committed every call is a no-op; a completed run followed
by another run changes nothing; the run preserves uniqueness of feed urls
and article ids (no duplicate rows); it never overwrites an existing store
row (the prior tables survive as a prefix, new rows are only appended); and
a run interrupted before the marker commit — any prefix of the legacy feeds
and of the legacy articles already inserted — followed by a full retry ends
in exactly the state of a single uninterrupted run. -/
theorem C5_migration_idempotent (pd : String → Int) (nowIso : String)
    (now : Int) (st : Store) (ls : LocalStorageState) :
    (st.migratedMarker = some "1" →
      importFromLocalStorageIfNeeded pd nowIso now st ls = (st, ls)) ∧
    (importFromLocalStorageIfNeeded pd nowIso now
        (importFromLocalStorageIfNeeded pd nowIso now st ls).1
        (importFromLocalStorageIfNeeded pd nowIso now st ls).2
      = importFromLocalStorageIfNeeded pd nowIso now st ls) ∧
    ((st.feeds.map Feed.url).Nodup →
      ((importFromLocalStorageIfNeeded pd nowIso now st ls).1.feeds.map
        Feed.url).Nodup) ∧
    ((st.articles.map Article.id).Nodup →
      ((importFromLocalStorageIfNeeded pd nowIso now st ls).1.articles.map
        Article.id).Nodup) ∧
    (∃ extF extA,
      (importFromLocalStorageIfNeeded pd nowIso now st ls).1.feeds
          = st.feeds ++ extF ∧
      (importFromLocalStorageIfNeeded pd nowIso now st ls).1.articles
          = st.articles ++ extA) ∧
    (st.migratedMarker ≠ some "1" →
      ∀ p1 p2, List.IsPrefix p1 (ls.feeds.getD []) →
        List.IsPrefix p2 (ls.articles.getD []) →
        importFromLocalStorageIfNeeded pd nowIso now
          (interruptedImport pd nowIso now ls.readMap ls.starredMap p1 p2 st) ls
          = importFromLocalStorageIfNeeded pd nowIso now st ls) := by
  refine ⟨import_noop_of_marker pd nowIso now st ls, ?_, ?_, ?_, ?_, ?_⟩
  · exact (import_noop_of_marker pd nowIso now _ _
      (import_marker_set pd nowIso now st ls)).trans rfl
  · intro hnd
    rcases import_cases pd nowIso now st ls with ⟨_, he⟩ | ⟨_, _, he⟩ | ⟨_, _, he⟩
    · rw [he]; exact hnd
    · rw [he]
      simp only [migFeedStep]
      exact foldl_insAbs_nodup Feed.url LegacyFeed.url (legacyFeedRow pd nowIso)
        (fun f => rfl) hnd (ls.feeds.getD [])
    · rw [he]; exact hnd
  · intro hnd
    rcases import_cases pd nowIso now st ls with ⟨_, he⟩ | ⟨_, _, he⟩ | ⟨_, _, he⟩
    · rw [he]; exact hnd
    · rw [he]
      simp only [migArtStep]
      exact foldl_insAbs_nodup Article.id LegacyArticle.id
        (legacyArticleRow pd now ls.readMap ls.starredMap)
        (fun a => rfl) hnd (ls.articles.getD [])
    · rw [he]; exact hnd
  · rcases import_cases pd nowIso now st ls with ⟨_, he⟩ | ⟨_, _, he⟩ | ⟨_, _, he⟩
    · rw [he]
      exact ⟨[], [], (List.append_nil _).symm, (List.append_nil _).symm⟩
    · rw [he]
      rcases foldl_insAbs_extends Feed.url LegacyFeed.url
        (legacyFeedRow pd nowIso) st.feeds (ls.feeds.getD []) with ⟨extF, hF⟩
      rcases foldl_insAbs_extends Article.id LegacyArticle.id
        (legacyArticleRow pd now ls.readMap ls.starredMap) st.articles
        (ls.articles.getD []) with ⟨extA, hA⟩
      refine ⟨extF, extA, ?_, ?_⟩
      · simp only [migFeedStep]; exact hF
      · simp only [migArtStep]; exact hA
    · rw [he]
      exact ⟨[], [], (List.append_nil _).symm, (List.append_nil _).symm⟩
  · intro hm p1 p2 hp1 hp2
    have hmI : ¬((interruptedImport pd nowIso now ls.readMap ls.starredMap
        p1 p2 st).migratedMarker = some "1") := hm
    by_cases hd : hasLegacyData ls = true
    · unfold importFromLocalStorageIfNeeded
      rw [if_neg hmI, if_neg hm, if_pos hd, if_pos hd]
      have hfeeds : (ls.feeds.getD []).foldl (migFeedStep pd nowIso)
          (interruptedImport pd nowIso now ls.readMap ls.starredMap
            p1 p2 st).feeds
          = (ls.feeds.getD []).foldl (migFeedStep pd nowIso) st.feeds := by
        have h1 : (interruptedImport pd nowIso now ls.readMap ls.starredMap
            p1 p2 st).feeds = p1.foldl (migFeedStep pd nowIso) st.feeds := rfl
        rw [h1]
        simp only [migFeedStep]
        exact foldl_insAbs_prefix Feed.url LegacyFeed.url
          (legacyFeedRow pd nowIso) (fun f => rfl) hp1 st.feeds
      have harts : (ls.articles.getD []).foldl
          (migArtStep pd now ls.readMap ls.starredMap)
          (interruptedImport pd nowIso now ls.readMap ls.starredMap
            p1 p2 st).articles
          = (ls.articles.getD []).foldl
            (migArtStep pd now ls.readMap ls.starredMap) st.articles := by
        have h1 : (interruptedImport pd nowIso now ls.readMap ls.starredMap
            p1 p2 st).articles
            = p2.foldl (migArtStep pd now ls.readMap ls.starredMap)
              st.articles := rfl
        rw [h1]
        simp only [migArtStep]
        exact foldl_insAbs_prefix Article.id LegacyArticle.id
          (legacyArticleRow pd now ls.readMap ls.starredMap)
          (fun a => rfl) hp2 st.articles
      rw [hfeeds, harts]
    · have hd2 : hasLegacyData ls = false := Bool.not_eq_true _ ▸ hd
      obtain ⟨hfe, hae⟩ := hasLegacyData_false hd2
      rw [hfe] at hp1
      rw [hae] at hp2
      obtain rfl : p1 = [] := List.prefix_nil.mp hp1
      obtain rfl : p2 = [] := List.prefix_nil.mp hp2
      rfl

/-- Witness for C5: on an empty store with one legacy feed and article,
running the migration twice equals running it once, and a retry after a run
interrupted right after inserting the legacy feed (marker not committed)
ends in the state of a single run. -/
theorem C5_migration_idempotent_witness :
    (importFromLocalStorageIfNeeded pdW "iso" 0
        (importFromLocalStorageIfNeeded pdW "iso" 0 emptyStore lsW).1
        (importFromLocalStorageIfNeeded pdW "iso" 0 emptyStore lsW).2
      = importFromLocalStorageIfNeeded pdW "iso" 0 emptyStore lsW) ∧
    (importFromLocalStorageIfNeeded pdW "iso" 0
        (interruptedImport pdW "iso" 0 lsW.readMap lsW.starredMap
          [lsFeed1] [] emptyStore) lsW
      = importFromLocalStorageIfNeeded pdW "iso" 0 emptyStore lsW) :=
  ⟨(C5_migration_idempotent pdW "iso" 0 emptyStore lsW).2.1,
   (C5_migration_idempotent pdW "iso" 0 emptyStore lsW).2.2.2.2.2
     (by intro h; cases h) [lsFeed1] [] List.prefix_rfl List.nil_prefix⟩

/-- Unfolding step of the write queue. -/
theorem runOps_cons {σ ε : Type} (op : σ → σ × Except ε Unit)
    (rest : List (σ → σ × Except ε Unit)) (s : σ) :
    runOps (op :: rest) s
      = ((runOps rest (op s).1).1, (op s).2 :: (runOps rest (op s).1).2) := rfl

/-- Claim C6: the promise-chain write queue of withWriteLock runs every
submitted operation exactly once, strictly in submission order: the outcome
list matches the submission list position by position, any split of the
queue runs the second part from the state the first part left (so a failing
operation rejects its own slot but never prevents later operations from
running), and the i-th outcome is the i-th operation applied to the state
after exactly its predecessors. -/
theorem C6_write_queue_fifo {σ ε : Type}
    (ops : List (σ → σ × Except ε Unit)) (s : σ) :
    ((runOps ops s).2.length = ops.length) ∧
    (∀ xs ys, ops = xs ++ ys →
      runOps ops s
        = ((runOps ys (runOps xs s).1).1,
           (runOps xs s).2 ++ (runOps ys (runOps xs s).1).2)) ∧
    (∀ (i : Nat) (op : σ → σ × Except ε Unit), ops[i]? = some op →
      (runOps ops s).2[i]? = some (op (runOps (ops.take i) s).1).2) := by
  refine ⟨?_, ?_, ?_⟩
  · induction ops generalizing s with
    | nil => rfl
    | cons op rest ih =>
      rw [runOps_cons]
      simp only [List.length_cons]
      rw [ih (op s).1]
  · intro xs ys hsplit
    subst hsplit
    induction xs generalizing s with
    | nil => rfl
    | cons op rest ih =>
      simp only [List.cons_append, runOps_cons, List.cons_append]
      rw [ih (op s).1]
  · induction ops generalizing s with
    | nil => intro i op hop; cases hop
    | cons op2 rest ih =>
      intro i op hop
      match i with
      | 0 =>
        simp only [List.getElem?_cons_zero, Option.some.injEq] at hop
        subst hop
        rw [runOps_cons]
        simp only [List.getElem?_cons_zero, List.take_zero]
        rfl
      | j + 1 =>
        simp only [List.getElem?_cons_succ] at hop
        rw [runOps_cons]
        simp only [List.getElem?_cons_succ, List.take_succ_cons, runOps_cons]
        exact ih (op2 s).1 j op hop

/-- Witness for C6: with an increment, a failing operation and another
increment queued, three outcomes are produced, the failure occupies its own
slot, and the third operation still ran on the state the failure left. -/
theorem C6_write_queue_fifo_witness :
    ((runOps opsW 0).2.length = 3) ∧
    ((runOps opsW 0).2[1]? = some (Except.error "boom")) ∧
    ((runOps opsW 0).2[2]?
      = some ((fun s => (s + 2, Except.ok ())) (runOps (opsW.take 2) 0).1).2) ∧
    ((runOps opsW 0).1 = 3) := by
  refine ⟨(C6_write_queue_fifo opsW 0).1, rfl, ?_, rfl⟩
  exact (C6_write_queue_fifo opsW 0).2.2 2 (fun s => (s + 2, Except.ok ())) rfl

/-- The rows listArticles selects are a permutation of the WHERE-filtered
table. -/
theorem listArticlesRows_perm (q : Option String) (f : String)
    (arts : List Article) :
    List.Perm (listArticlesRows q f arts) (arts.filter (listCond q f)) :=
  List.perm_insertionSort articleLE _

/-- With no feed option and a filter that is neither "unread" nor "starred",
every row passes the WHERE clause. -/
theorem listCond_none_all {f : String} (h1 : f ≠ "unread") (h2 : f ≠ "starred")
    (a : Article) : listCond none f a = true := by
  unfold listCond
  rw [beq_eq_false_iff_ne.mpr h1, beq_eq_false_iff_ne.mpr h2]
  rfl

/-- With a non-empty feed url the WHERE clause is the feed_url test combined
with the flag test of the filter. -/
theorem listCond_some {u : String} (hu : u ≠ "") (f : String) (a : Article) :
    listCond (some u) f a
      = ((a.feed_url == u) &&
        (if f == "unread" then a.is_read == 0
         else if f == "starred" then a.is_starred == 1
         else true)) := by
  unfold listCond
  simp only [if_neg hu]

/-- Claim C8: listArticles returns exactly the rows satisfying the selected
filter — all rows for no filter, the rows of the given feed for the by-feed
option, the is_read = 0 rows for "unread", the is_starred = 1 rows for
"starred", intersected when combined — ordered by published_ts descending
with ties broken by fetched_at descending (every adjacent pair satisfies
articleLE), and the returned objects are those rows through rowToArticle. -/
theorem C8_listArticles_filters_order (arts : List Article) :
    (∀ f, f ≠ "unread" → f ≠ "starred" →
      List.Perm (listArticlesRows none f arts) arts) ∧
    (∀ u f, u ≠ "" → f ≠ "unread" → f ≠ "starred" →
      List.Perm (listArticlesRows (some u) f arts)
        (arts.filter (fun a => a.feed_url == u))) ∧
    (List.Perm (listArticlesRows none "unread" arts)
      (arts.filter (fun a => a.is_read == 0))) ∧
    (List.Perm (listArticlesRows none "starred" arts)
      (arts.filter (fun a => a.is_starred == 1))) ∧
    (∀ u, u ≠ "" →
      List.Perm (listArticlesRows (some u) "unread" arts)
        (arts.filter (fun a => a.feed_url == u && a.is_read == 0))) ∧
    (∀ u, u ≠ "" →
      List.Perm (listArticlesRows (some u) "starred" arts)
        (arts.filter (fun a => a.feed_url == u && a.is_starred == 1))) ∧
    (∀ q f, List.Sorted articleLE (listArticlesRows q f arts)) ∧
    (∀ q f, listArticles q f arts
      = (listArticlesRows q f arts).map rowToArticle) := by
  refine ⟨?_, ?_, ?_, ?_, ?_, ?_, ?_, ?_⟩
  · intro f h1 h2
    refine (listArticlesRows_perm none f arts).trans ?_
    rw [List.filter_eq_self.mpr (fun a _ => listCond_none_all h1 h2 a)]
  · intro u f hu h1 h2
    refine (listArticlesRows_perm (some u) f arts).trans ?_
    rw [List.filter_congr (fun a _ => ?_)]
    rw [listCond_some hu, beq_eq_false_iff_ne.mpr h1, beq_eq_false_iff_ne.mpr h2]
    simp
  · refine (listArticlesRows_perm none "unread" arts).trans ?_
    rw [List.filter_congr (fun a _ => ?_)]
    unfold listCond
    simp
  · refine (listArticlesRows_perm none "starred" arts).trans ?_
    rw [List.filter_congr (fun a _ => ?_)]
    unfold listCond
    simp
  · intro u hu
    refine (listArticlesRows_perm (some u) "unread" arts).trans ?_
    rw [List.filter_congr (fun a _ => ?_)]
    rw [listCond_some hu]
    simp
  · intro u hu
    refine (listArticlesRows_perm (some u) "starred" arts).trans ?_
    rw [List.filter_congr (fun a _ => ?_)]
    rw [listCond_some hu]
    simp
  · intro q f
    exact List.sorted_insertionSort articleLE _
  · intro q f
    rfl

/-- Witness for C8: on the two-article table [wOld, vArt], listing with the
by-feed option for feed u yields exactly feed u's row. -/
theorem C8_listArticles_filters_order_witness :
    List.Perm (listArticlesRows (some "u") "all" [wOld, vArt])
      ([wOld, vArt].filter (fun a => a.feed_url == "u")) ∧
    List.Sorted articleLE (listArticlesRows (some "u") "all" [wOld, vArt]) := by
  refine ⟨(C8_listArticles_filters_order [wOld, vArt]).2.1 "u" "all"
    (by decide) (by decide) (by decide), ?_⟩
  exact (C8_listArticles_filters_order [wOld, vArt]).2.2.2.2.2.2.1
    (some "u") "all"

/-- Claim C10: the read model returned by listArticles exposes exactly the
ten fields id, feedUrl, feedName, title, link, published, content, author,
is_read and is_starred (the ArticleView shape): each returned object is the
rowToArticle projection of a selected row; the projection forgets
published_ts and fetched_at (rows differing only there project equally, even
though those columns ordered the result); and the integer flags are coerced
to booleans by the nonzero test of JavaScript double negation. -/
theorem C10_read_model_projection (arts : List Article) :
    (∀ q f, listArticles q f arts
      = (listArticlesRows q f arts).map rowToArticle) ∧
    (∀ r : Article, rowToArticle r =
      { id := r.id, feedUrl := r.feed_url, feedName := r.feed_name,
        title := r.title, link := r.link, published := r.published,
        content := r.content, author := r.author,
        is_read := r.is_read != 0, is_starred := r.is_starred != 0 }) ∧
    (∀ (r : Article) (ts fa : Int),
      rowToArticle { r with published_ts := ts, fetched_at := fa }
        = rowToArticle r) ∧
    (∀ r : Article, ((rowToArticle r).is_read = true ↔ ¬ r.is_read = 0) ∧
      ((rowToArticle r).is_starred = true ↔ ¬ r.is_starred = 0)) := by
  refine ⟨fun q f => rfl, fun r => rfl, fun r ts fa => rfl, fun r => ⟨?_, ?_⟩⟩
  · exact bne_iff_ne
  · exact bne_iff_ne

/-- JavaScript defaulting with an empty default is the identity. -/
theorem jsOr_empty_right (a : String) : jsOr a "" = a := by
  unfold jsOr
  by_cases h : a = ""
  · rw [if_pos h, h]
  · rw [if_neg h]

/-- Claim C9: parseRSS is total (it is a function of the parsed document;
DOMParser.parseFromString itself never throws on any input string, yielding
an error document instead) and applies the defaulting policy: an RSS item
with no title element parses to "Untitled", an Atom entry likewise; an Atom
entry with no published element but an updated element takes updated's text
as its published field; and every other missing field — link, published,
content, author, in both branches — degrades to the empty string. -/
theorem C9_parser_total_defaults :
    (∀ doc : XNode, ∃ r : ParsedFeed, parseRSS doc = r) ∧
    (∀ doc : XNode, doc.descend (tagIs "feed") = none →
      (parseRSS doc).items = (doc.descendAll (tagIs "item")).map rssItem) ∧
    (∀ doc : XNode, (doc.descend (tagIs "feed")).isSome = true →
      (parseRSS doc).items = (doc.descendAll (tagIs "entry")).map atomEntry) ∧
    (∀ item : XNode, item.descend (tagIs "title") = none →
      (rssItem item).title = "Untitled") ∧
    (∀ entry : XNode, entry.descend (tagIs "title") = none →
      (atomEntry entry).title = "Untitled") ∧
    (∀ (entry up : XNode), entry.descend (tagIs "published") = none →
      entry.descend (tagIs "updated") = some up →
      (atomEntry entry).published = up.textContent) ∧
    (∀ item : XNode, item.descend (tagIs "link") = none →
      (rssItem item).link = "") ∧
    (∀ item : XNode, item.descend (tagIs "pubDate") = none →
      item.descend (tagIs "dc:date") = none → (rssItem item).published = "") ∧
    (∀ item : XNode, item.descend (tagIs "content:encoded") = none →
      item.descend (tagIs "description") = none → (rssItem item).content = "") ∧
    (∀ item : XNode, item.descend (tagIs "dc:creator") = none →
      item.descend (tagIs "author") = none → (rssItem item).author = "") ∧
    (∀ entry : XNode,
      entry.descend (fun n => n.tag == "link" && n.attr "rel" == some "alternate")
        = none →
      entry.descend (tagIs "link") = none → (atomEntry entry).link = "") ∧
    (∀ entry : XNode, entry.descend (tagIs "published") = none →
      entry.descend (tagIs "updated") = none →
      (atomEntry entry).published = "") ∧
    (∀ entry : XNode, entry.descend (tagIs "content") = none →
      entry.descend (tagIs "summary") = none → (atomEntry entry).content = "") ∧
    (∀ entry : XNode, entry.selChild "author" "name" = none →
      (atomEntry entry).author = "") := by
  refine ⟨fun doc => ⟨parseRSS doc, rfl⟩, ?_, ?_, ?_, ?_, ?_, ?_, ?_, ?_, ?_,
    ?_, ?_, ?_, ?_⟩
  · intro doc h
    simp [parseRSS, h]
  · intro doc h
    simp [parseRSS, h]
  · intro item h
    simp only [rssItem, h]
    rfl
  · intro entry h
    simp only [atomEntry, h]
    rfl
  · intro entry up h1 h2
    simp only [atomEntry, h1, h2]
    exact jsOr_empty_right up.textContent
  · intro item h
    simp only [rssItem, h]
    rfl
  · intro item h1 h2
    simp only [rssItem, h1, h2]
    rfl
  · intro item h1 h2
    simp only [rssItem, h1, h2]
    rfl
  · intro item h1 h2
    simp only [rssItem, h1, h2]
    rfl
  · intro entry h1 h2
    simp only [atomEntry, h1, h2]
    rfl
  · intro entry h1 h2
    simp only [atomEntry, h1, h2]
    rfl
  · intro entry h1 h2
    simp only [atomEntry, h1, h2]
    rfl
  · intro entry h
    simp only [atomEntry, h]
    rfl

/-- Witness for C9: the RSS document rssDocW parses through the RSS branch,
its title-less item defaults to "Untitled" with its link preserved, and the
published-less Atom entry atomEntryW takes its updated text. -/
theorem C9_parser_total_defaults_witness :
    ((parseRSS rssDocW).items = (rssDocW.descendAll (tagIs "item")).map rssItem) ∧
    ((rssItem rssItemW).title = "Untitled") ∧
    ((atomEntry atomEntryW).published = "2020-01-01") := by
  refine ⟨C9_parser_total_defaults.2.1 rssDocW rfl,
    C9_parser_total_defaults.2.2.2.1 rssItemW rfl, ?_⟩
  refine (C9_parser_total_defaults.2.2.2.2.2.1 atomEntryW
    (XNode.elem "updated" [] "2020-01-01" []) rfl rfl).trans ?_
  decide

end Lector
